import Mathlib

set_option maxRecDepth 100000

/-!
Verification of the code-emission and merge-back core of FLTK's fluid
(`src/fluid/code.cxx`, `src/fluid/code.h`).

The development shallowly embeds the writer state and the operations of
`Fd_Code_Writer` as executable Lean functions over byte lists (`List Nat`,
each element a byte value 0..255).  Streams and files are byte lists; a file
read line-by-line with `fgets` is a `List (List Nat)` whose concatenation is
the file's byte content.  Machine integers are modelled as `Nat`/`Int` with
explicit `% 2^w` where the source relies on wrap-around or casts.
-/

namespace Fluid

/-! ## CRC32 primitive (zlib `crc32`, as called byte-by-byte by the writer)

zlib's `crc32(crc, buf, len)` is the standard reflected CRC-32 with
polynomial 0xEDB88320: the running value is xored with 0xFFFFFFFF on entry,
each byte is xored into the low bits and shifted out over eight steps, and
the result is xored with 0xFFFFFFFF again.  `crc32(0, NULL, 0)` (the reset
value used throughout `code.cxx`) is 0.  All values stay below 2^32. -/

/-- One bit-step of the reflected CRC-32: shift right, conditionally xor
the reversed polynomial 0xEDB88320. -/
def crc32_step (c : Nat) : Nat :=
  if c % 2 == 1 then (c / 2) ^^^ 0xEDB88320 else c / 2

/-- Iterate `crc32_step` a fixed number of times (eight per input byte). -/
def crc32_steps : Nat → Nat → Nat
  | 0, c => c
  | k + 1, c => crc32_steps k (crc32_step c)

/-- zlib `crc32(crc, &b, 1)`: one-byte CRC-32 update. -/
def crc32_update (crc b : Nat) : Nat :=
  (crc32_steps 8 ((crc ^^^ 0xFFFFFFFF) ^^^ (b % 256))) ^^^ 0xFFFFFFFF

/-- `crc32(0, NULL, 0)`, the value `block_crc_` is reset to. -/
def crcInit : Nat := 0

/-! ## Byte classification -/

/-- C-locale `isspace` restricted to byte values for which the source's
guard `*s > 0 && isspace(*s)` is true: a `char` is signed, so bytes
128..255 are negative and never pass the guard, and `isspace` is true
exactly on 9..13 and 32 (all below 128 and positive).  Hence the guard is
equivalent to membership in {9, 10, 11, 12, 13, 32}. -/
def isCws (b : Nat) : Bool :=
  b == 9 || b == 10 || b == 11 || b == 12 || b == 13 || b == 32

/-! ## `Fd_Code_Writer::crc_add` — the normalizing CRC accumulator

```
void Fd_Code_Writer::crc_add(const void *data, int n) {
  if (!data) return;
  if (n==-1) n = (int)strlen((const char*)data);
  const char *s = (const char*)data;
  for (int i=n; n>0; --n, ++s) {
    if (block_line_start_) {
      // don't count leading spaces and tabs in a line
      while (n>0 && *s>0 && isspace(*s)) { s++; n--; }
      if (*s) block_line_start_ = false;
    }
    // don't count '\r' that may be introduces by MSWindows
    if (n>0 && *s=='\r') { s++; n--; }
    if (n>0 && *s=='\n') block_line_start_ = true;
    if (n>0) {
      block_crc_ = crc32(block_crc_, (const Bytef*)s, 1);
    }
  }
}
```

`crcAddGo` embeds this loop as a byte-at-a-time automaton whose mode is the
program point at the top of a processing step:

* `lineStart` — top of a loop iteration with `block_line_start_ == true`.
  The inner `while` consumes one whitespace byte at a time (mode stays
  `lineStart`).  When a non-whitespace byte is reached, `if (*s)` clears
  the flag — unless the byte is NUL (possible only when an explicit `n`
  spans a 0 byte), in which case the flag stays set and the 0 byte is
  CRC'd.  A byte that ends the whitespace run is never `'\r'` or `'\n'`
  (both are whitespace), so the two following checks cannot fire and the
  byte is CRC'd with the mode moving to `mid`.
* `mid` — top of a loop iteration with `block_line_start_ == false`.
  A `'\r'` is skipped by `if (n>0 && *s=='\r')` and the *next* byte is
  processed in the same iteration: that is mode `afterCR`.  A `'\n'` is
  CRC'd and sets the flag.  Any other byte is CRC'd.
* `afterCR` — the program point just after the `'\r'` skip consumed a
  carriage return.  The next byte is checked against `'\n'` and CRC'd
  without a further `'\r'` check — which is why only one `'\r'` per
  iteration is dropped and the second of two adjacent `'\r'` bytes is
  CRC'd.

At the end of the data the exported writer state is only
`(block_crc_, block_line_start_)`; a pending `afterCR` position does not
survive into the next `crc_add` call, which `crc_add` models by starting
in `lineStart`/`mid` according to the boolean flag. -/

/-- Program point of `crc_add`'s loop; see the embedding note above. -/
inductive CrcMode where
  | lineStart
  | mid
  | afterCR
deriving DecidableEq

/-- The loop of `Fd_Code_Writer::crc_add` over the remaining bytes. -/
def crcAddGo : CrcMode → Nat → List Nat → Nat × Bool
  | .lineStart, crc, [] => (crc, true)
  | .mid, crc, [] => (crc, false)
  | .afterCR, crc, [] => (crc, false)
  | .lineStart, crc, b :: t =>
    if isCws b then crcAddGo .lineStart crc t
    else if b == 0 then crcAddGo .lineStart (crc32_update crc 0) t
    else crcAddGo .mid (crc32_update crc b) t
  | .mid, crc, b :: t =>
    if b == 13 then crcAddGo .afterCR crc t
    else if b == 10 then crcAddGo .lineStart (crc32_update crc 10) t
    else crcAddGo .mid (crc32_update crc b) t
  | .afterCR, crc, b :: t =>
    if b == 10 then crcAddGo .lineStart (crc32_update crc 10) t
    else crcAddGo .mid (crc32_update crc b) t

/-- Writer CRC state: `(block_crc_, block_line_start_)`. -/
abbrev CrcSt := Nat × Bool

/-- `Fd_Code_Writer::crc_add(data, n)` on the byte list `data` (the bytes
the call actually covers: for the `n == -1` / `crc_puts` form these are the
bytes before the terminating NUL). -/
def crc_add (st : CrcSt) (data : List Nat) : CrcSt :=
  crcAddGo (if st.2 then .lineStart else .mid) st.1 data

/-! ## Rendering helpers for `printf`-style emission -/

/-- Digit values of `n` in base `b`, most significant first, via explicit
fuel so the definition is structural (and kernel-reducible).  `n + 1` is
always enough fuel because `n / b < n` for `b ≥ 2`, `n ≥ b`. -/
def natDigitsAux (base : Nat) : Nat → Nat → List Nat
  | 0, _ => []
  | fuel + 1, n => if n < base then [n] else natDigitsAux base fuel (n / base) ++ [n % base]

/-- Digit values of `n` in base `base`, most significant first. -/
def natDigits (base n : Nat) : List Nat := natDigitsAux base (n + 1) n

/-- `%d` of a non-negative value: ASCII decimal digits. -/
def decBytes (n : Nat) : List Nat := (natDigits 10 n).map (· + 48)

/-- `%o`: ASCII octal digits, exactly as many as the value needs. -/
def octalBytes (n : Nat) : List Nat := (natDigits 8 n).map (· + 48)

/-- Lowercase hex digit byte for a digit value. -/
def hexDigitByte (d : Nat) : Nat := if d < 10 then 48 + d else 87 + d

/-- `%x`: lowercase ASCII hex digits. -/
def hexBytes (n : Nat) : List Nat := (natDigits 16 n).map hexDigitByte

/-- `%0wx`: lowercase hex, zero-padded on the left to width `w` (printf
prints all digits when the value needs more than `w`). -/
def hexPad (w n : Nat) : List Nat :=
  List.replicate (w - (hexBytes n).length) 48 ++ hexBytes n

/-- Byte list of an ASCII string literal. -/
def strBytes (s : String) : List Nat := s.data.map Char.toNat

/-! ## `Fd_Code_Writer::tag`

```
void Fd_Code_Writer::tag(int type, unsigned short uid) {
  if (g_project.write_mergeback_data)
    fprintf(code_file, "//~fl~%d~%04x~%08x~~\n", type, (int)uid, (unsigned int)block_crc_);
  block_crc_ = crc32(0, NULL, 0);
}
```

The tag line is written with `fprintf` directly, bypassing the CRC layer,
so it contributes nothing to `block_crc_` and does not touch
`block_line_start_`.  The function resets `block_crc_` unconditionally and
never assigns `block_line_start_`.  The result below is the new
`(block_crc_, block_line_start_)` state paired with the bytes written to
the code file. -/

/-- `Fd_Code_Writer::tag(type, uid)`: `enabled` is the project setting
`write_mergeback_data`; `st` is the writer CRC state on entry.  `uid` is
an `unsigned short` parameter (hence the `% 65536`); `block_crc_` is cast
to `unsigned int` for `%08x` (hence the `% 2^32`). -/
def tag (enabled : Bool) (st : CrcSt) (ty : Nat) (uid : Nat) : CrcSt × List Nat :=
  ((crcInit, st.2),
   if enabled then
     strBytes "//~fl~" ++ decBytes ty ++ [126] ++ hexPad 4 (uid % 65536) ++ [126]
       ++ hexPad 8 (st.1 % 4294967296) ++ [126, 126, 10]
   else [])

/-! ## `Fd_Code_Writer::write_cstring(const char *s, int length)`

The escaping loop (`code.cxx` lines 402..494).  Each input byte `c` is read
into a signed `int`; the `switch` labels and the printable-range test
`c >= ' ' && c < 127` only match for byte values below 128 (larger bytes
are negative as a signed `char`), the UTF-8 test `c & 0x80` matches bytes
at or above 128, and the octal path first normalizes with `c &= 255` — so
working with the unsigned byte value throughout is equivalent.  The loop
carries `linelength` and emits through the CRC layer; this embedding
returns the emitted bytes.  `prev` is the previously consumed input byte
(`*(p-2)`, defined when `p-2 >= s`), used only by the trigraph rule. -/

/-- Hex digit as tested by the literal-splitting lookahead
`(c>='0'&&c<='9') || (c>='a'&&c<='f') || (c>='A'&&c<='F')`. -/
def isHexDigitB (b : Nat) : Bool :=
  (48 ≤ b && b ≤ 57) || (97 ≤ b && b ≤ 102) || (65 ≤ b && b ≤ 70)

/-- The body of `write_cstring`'s escaping loop over the remaining input
bytes, with the previously consumed byte and the current `linelength`. -/
def wcsLoop (utf8 : Bool) (prev : Option Nat) (ll : Nat) : List Nat → List Nat
  | [] => []
  | b :: rest =>
    if b == 8 || b == 9 || b == 10 || b == 12 || b == 13 || b == 34 || b == 39 || b == 92
       || (b == 63 && prev == some 63) then
      -- the QUOTED path: two-character escape, soft wrap at 77 columns
      let q : Nat :=
        if b == 8 then 98 else if b == 9 then 116 else if b == 10 then 110
        else if b == 12 then 102 else if b == 13 then 114 else b
      (if 77 ≤ ll then [92, 10] else []) ++ [92, q]
        ++ wcsLoop utf8 (some b) ((if 77 ≤ ll then 0 else ll) + 2) rest
    else if 32 ≤ b && b < 127 then
      -- printable ASCII, emitted verbatim
      (if 78 ≤ ll then [92, 10] else []) ++ [b]
        ++ wcsLoop utf8 (some b) ((if 78 ≤ ll then 0 else ll) + 1) rest
    else if utf8 && 128 ≤ b then
      -- UTF-8 verbatim; a wrap is allowed only before a leader byte (0b11......)
      (if 192 ≤ b && 78 ≤ ll then [92, 10] else []) ++ [b]
        ++ wcsLoop utf8 (some b) ((if 192 ≤ b && 78 ≤ ll then 0 else ll) + 1) rest
    else
      -- octal escape; wrap threshold depends on the digit count
      let thr : Nat := if b < 8 then 76 else if b < 64 then 75 else 74
      let add : Nat := if b < 8 then 2 else if b < 64 then 3 else 4
      let brk : List Nat := if thr ≤ ll then [92, 10] else []
      let ll1 : Nat := (if thr ≤ ll then 0 else ll) + add
      -- lookahead: split the literal if the next byte is a hex digit
      match rest with
      | next :: _ =>
        if isHexDigitB next then
          brk ++ 92 :: octalBytes b
            ++ (if 79 ≤ ll1 + 1 then [34, 10, 34] else [34, 34])
            ++ wcsLoop utf8 (some b) ((if 79 ≤ ll1 + 1 then 0 else ll1 + 1) + 1) rest
        else brk ++ 92 :: octalBytes b ++ wcsLoop utf8 (some b) ll1 rest
      | [] => brk ++ 92 :: octalBytes b ++ wcsLoop utf8 (some b) ll1 rest

/-- The lookahead `c = *p` of the octal path: whether the next input byte
exists and is a hex digit (so that a C compiler would fold it into the
octal escape). -/
def nextIsHex : List Nat → Bool
  | next :: _ => isHexDigitB next
  | [] => false

/-- Specification of one octal-path step of `write_cstring`: the bytes
emitted for input byte `b` at line length `ll` (soft wrap, backslash,
exactly the octal digits of `b`, and — when the next byte is a hex
digit — a closing and an immediately reopened quote, with only the
line-wrap newline ever between them), paired with the new line length. -/
def octalStep (b ll : Nat) (nxHex : Bool) : List Nat × Nat :=
  let thr : Nat := if b < 8 then 76 else if b < 64 then 75 else 74
  let add : Nat := if b < 8 then 2 else if b < 64 then 3 else 4
  let brk : List Nat := if thr ≤ ll then [92, 10] else []
  let ll1 : Nat := (if thr ≤ ll then 0 else ll) + add
  if nxHex then
    (brk ++ 92 :: octalBytes b ++ (if 79 ≤ ll1 + 1 then [34, 10, 34] else [34, 34]),
     (if 79 ≤ ll1 + 1 then 0 else ll1 + 1) + 1)
  else (brk ++ 92 :: octalBytes b, ll1)

/-- `Fd_Code_Writer::write_cstring(s, length)`.  `varused_test`,
`write_sourceview` and `utf8_in_src` are the writer/project flags read by
the source; `s = none` models a NULL pointer.  Returns the emitted bytes
(`varused_test` suppresses all output).  When `length` exceeds the data
actually present the C code reads out of bounds; the model processes the
bytes that exist. -/
def write_cstring (varused_test write_sourceview utf8_in_src : Bool)
    (s : Option (List Nat)) (length : Int) : List Nat :=
  if varused_test then []
  else if write_sourceview && (s == none || 300 < length) then
    if 0 ≤ length then
      [34] ++ strBytes " ... " ++ decBytes length.toNat ++ strBytes " bytes of text... " ++ [34]
    else strBytes "\" ... text... \""
  else if length == -1 || s == none then
    strBytes "\n#error  string not found\n" ++ strBytes "\" ... undefined size text... \""
  else
    [34] ++ wcsLoop utf8_in_src none 1 ((s.getD []).take length.toNat) ++ [34]

/-! ## `Fd_Code_Writer::write_cc` / `write_hc`

```
void Fd_Code_Writer::write_cc(const char *indent, int n, const char *c, const char *com) {
  write_c("%s%.*s", indent, n, c);
  char cc = c[n-1];
  if (cc!='}' && cc!=';')
    write_c(";");
  if (*com)
    write_c(" %s", com);
  write_c("\n");
}
```

`c[n-1]` is read unconditionally: for `n == 0` the index is -1 and for
`n` beyond the data it is past the end, both out of bounds.  The model
returns `none` exactly in those cases and otherwise the emitted bytes.
`%.*s` prints at most `n` bytes of `c`, stopping at a NUL. -/

/-- `Fd_Code_Writer::write_cc(indent, n, c, com)` (code stream). -/
def write_cc (ind : List Nat) (n : Nat) (c : List Nat) (com : List Nat) : Option (List Nat) :=
  match (if n = 0 then none else c.get? (n - 1)) with
  | none => none
  | some cc =>
    some (ind ++ (c.take n).takeWhile (fun b => b != 0)
      ++ (if cc = 125 ∨ cc = 59 then [] else [59])
      ++ (if com = [] then [] else 32 :: com) ++ [10])

/-- `Fd_Code_Writer::write_hc(indent, n, c, com)` (header stream; same
text, emitted without the CRC layer). -/
def write_hc (ind : List Nat) (n : Nat) (c : List Nat) (com : List Nat) : Option (List Nat) :=
  match (if n = 0 then none else c.get? (n - 1)) with
  | none => none
  | some cc =>
    some (ind ++ (c.take n).takeWhile (fun b => b != 0)
      ++ (if cc = 125 ∨ cc = 59 then [] else [59])
      ++ (if com = [] then [] else 32 :: com) ++ [10])

/-! ## Once-writers: `write_h_once`, `write_c_once`

The source keeps two binary search trees of strings (`Fd_Text_Tree`)
ordered by `strcmp`: `text_in_header` and `text_in_code`.  `write_h_once`
searches `text_in_header` and, on a miss, prints the line to the header
file and inserts it; `write_c_once` first searches `text_in_header`
(without inserting), then `text_in_code`, and on a double miss prints the
line to the code file through the CRC layer and inserts it into
`text_in_code`.  Both return 1 when the line was new, 0 otherwise.
We model the trees as binary search trees with the same comparison; the
single source descent that both searches and inserts at the missed slot is
split here into a membership test and an insertion along the identical
comparison path. -/

/-- `strcmp` on NUL-free byte strings: sign of the first difference, with
the shorter string comparing below (its NUL terminator is less than any
further byte of the other string). -/
def cmpBytes : List Nat → List Nat → Int
  | [], [] => 0
  | [], _ :: _ => -1
  | _ :: _, [] => 1
  | a :: s, b :: t => if a < b then -1 else if b < a then 1 else cmpBytes s t

/-- `Fd_Text_Tree`: binary search tree of emitted lines. -/
inductive TextTree where
  | nil
  | node (left : TextTree) (text : List Nat) (right : TextTree)
deriving DecidableEq

/-- Search along the `strcmp` order, as the `while (*p)` loops do. -/
def tt_mem (x : List Nat) : TextTree → Bool
  | .nil => false
  | .node l t r =>
    if cmpBytes x t = 0 then true
    else if cmpBytes x t < 0 then tt_mem x l
    else tt_mem x r

/-- Insert at the slot where the search missed (`*p = new Fd_Text_Tree`). -/
def tt_insert (x : List Nat) : TextTree → TextTree
  | .nil => .node .nil x .nil
  | .node l t r =>
    if cmpBytes x t = 0 then .node l t r
    else if cmpBytes x t < 0 then .node (tt_insert x l) t r
    else .node l t (tt_insert x r)

/-- The once-writer state: the two text trees, the bytes emitted so far to
each stream, and the CRC state (`write_c_once` emits via `crc_printf`). -/
structure OnceSt where
  text_in_header : TextTree
  text_in_code : TextTree
  header_out : List Nat
  code_out : List Nat
  crc : CrcSt
deriving DecidableEq

/-- `Fd_Code_Writer::write_h_once` applied to the formatted line `buf`. -/
def write_h_once (st : OnceSt) (buf : List Nat) : Nat × OnceSt :=
  if tt_mem buf st.text_in_header then (0, st)
  else
    (1, { st with
          text_in_header := tt_insert buf st.text_in_header,
          header_out := st.header_out ++ buf ++ [10] })

/-- `Fd_Code_Writer::write_c_once` applied to the formatted line `buf`;
`enabled` is `g_project.write_mergeback_data` (whether `crc_printf`
updates the block CRC). -/
def write_c_once (enabled : Bool) (st : OnceSt) (buf : List Nat) : Nat × OnceSt :=
  if tt_mem buf st.text_in_header then (0, st)
  else if tt_mem buf st.text_in_code then (0, st)
  else
    (1, { st with
          text_in_code := tt_insert buf st.text_in_code,
          code_out := st.code_out ++ buf ++ [10],
          crc := if enabled then crc_add st.crc (buf ++ [10]) else st.crc })

/-! ## `unindent` / `unindent_block` (merge-back's edit extraction)

```
static void unindent(char *s) {
  char *d = s;
  bool line_start = true;
  while (*s) {
    if (line_start) {
      if (*s>0 && isspace(*s)) s++;
      if (*s>0 && isspace(*s)) s++;
      line_start = false;
    }
    if (*s=='\r') s++;
    if (*s=='\n') line_start = true;
    *d++ = *s++;
  }
  *d = 0;
}
```

`unindentGo` embeds the loop as a byte-at-a-time automaton over the
program points of one iteration:

* `ls2` — top of an iteration with `line_start == true`, neither of the
  two conditional whitespace skips taken yet.  A whitespace byte (which
  includes `'\r'` and `'\n'`) is consumed by the first skip, moving to
  `ls1`; a non-whitespace byte falls through to the copy (it can be
  neither `'\r'` nor `'\n'`, which are whitespace) and is copied, moving
  to `mid`.
* `ls1` — after the first skip consumed a byte; same with one skip left,
  falling to `mid` either way.
* `mid` — the `'\r'`-skip check point (also the top of an iteration with
  `line_start == false`, which reaches the same point).  A `'\r'` is
  consumed and the *next* byte is copied in the same iteration without a
  second `'\r'` check (point `afterCR`) — so of two adjacent `'\r'` bytes
  only the first is dropped.  A `'\n'` is copied and sets `line_start`.
* `afterCR` — copy the byte after a dropped `'\r'`, checking only for
  `'\n'`.

A NUL byte ends the produced string in every state: either the
`while (*s)` test exits the loop, or the NUL is copied to `*d`,
terminating the result (the resulting `Fl_String` reads up to the first
NUL).  The model therefore emits nothing from the first 0 byte on. -/

/-- Program point of `unindent`'s loop; see the embedding note above. -/
inductive UMode where
  | ls2
  | ls1
  | mid
  | afterCR
deriving DecidableEq

/-- The loop of `unindent` over the remaining bytes, producing the bytes
of the resulting string. -/
def unindentGo : UMode → List Nat → List Nat
  | _, [] => []
  | .ls2, b :: t =>
    if b == 0 then []
    else if isCws b then unindentGo .ls1 t
    else b :: unindentGo .mid t
  | .ls1, b :: t =>
    if b == 0 then []
    else if isCws b then unindentGo .mid t
    else b :: unindentGo .mid t
  | .mid, b :: t =>
    if b == 0 then []
    else if b == 13 then unindentGo .afterCR t
    else if b == 10 then 10 :: unindentGo .ls2 t
    else b :: unindentGo .mid t
  | .afterCR, b :: t =>
    if b == 0 then []
    else if b == 10 then 10 :: unindentGo .ls2 t
    else b :: unindentGo .mid t

/-- `unindent(s)`: the loop starts with `line_start = true`. -/
def unindent (s : List Nat) : List Nat := unindentGo .ls2 s

/-- `unindent_block(f, start, end)`: read the file bytes in
`[start, end)` and un-indent them.  When `end ≤ start` the C code calls
`malloc` with a non-positive size (undefined); the model reads an empty
slice. -/
def unindent_block (flat : List Nat) (start stop : Nat) : List Nat :=
  unindent ((flat.drop start).take (stop - start))

/-! ### Specification-side un-indent (for claim C7)

Written from the amended wording of the claim: remove, at the start of
every line, up to two leading whitespace bytes (a carriage return there
counts as one of the two); remove every other carriage-return byte; keep
every other byte unchanged and in order.  `budget` is the number of
line-leading whitespace drops still available (2 at each line start, dead
after the first kept non-newline byte). -/
def unindentSpecGo : Nat → List Nat → List Nat
  | _, [] => []
  | budget, b :: t =>
    if b == 13 then unindentSpecGo (budget - 1) t
    else if isCws b && budget != 0 then unindentSpecGo (budget - 1) t
    else if b == 10 then 10 :: unindentSpecGo 2 t
    else b :: unindentSpecGo 0 t

/-- Specification-side un-indent of a whole text (starts at a line start). -/
def unindentSpec (s : List Nat) : List Nat := unindentSpecGo 2 s

/-- No two adjacent carriage-return bytes. -/
def noAdjCR : List Nat → Bool
  | [] => true
  | [_] => true
  | a :: b :: t => !(a == 13 && b == 13) && noAdjCR (b :: t)

/-! ## The design tree, as seen by merge-back

Merge-back touches the tree only through `Fl_Type::find_by_uid(uid)`,
`is_true_widget()`, `is_a(ID_Code)`, `callback(text)` and `name(text)`.
We model the tree as the list of its nodes in traversal order with exactly
those observables; `find_by_uid` returns the first node with the given
uid, and mutation replaces that node's text field. -/

/-- A design-tree node as observed by merge-back. -/
structure FlType where
  uid : Nat
  is_true_widget : Bool
  is_code : Bool
  callback : List Nat
  name : List Nat
deriving DecidableEq

/-- `Fl_Type::find_by_uid(uid)` (the uid scanned from the file is an
`int`, compared against the node's 16-bit uid). -/
def find_by_uid (u : Int) (tree : List FlType) : Option FlType :=
  tree.find? (fun n => (n.uid : Int) == u)

/-- Replace the node `find_by_uid` would return, applying `f` to it. -/
def updFirst (u : Int) (f : FlType → FlType) : List FlType → List FlType
  | [] => []
  | n :: t => if (n.uid : Int) == u then f n :: t else n :: updFirst u f t

/-! ## The tag parse: `sscanf(tag, "//~fl~%d~%04x~%08lx~~", &type, &uid, &crc)`

The scan succeeds (returns 3) exactly when the literal `//~fl~` matches,
`%d` converts, the literal `~` matches, `%04x` converts, the next literal
`~` matches and `%08lx` converts; the trailing `~~` is matched after all
three assignments and cannot reduce the count below 3.  `%d` skips
leading whitespace and accepts an optional sign; `%x` additionally
accepts an optional `0x`/`0X` prefix.  The sign and prefix count toward
the field width.  (The `0x` prefix is consumed only when a hex digit can
still follow within the width; generated tags never contain signs or
prefixes, so these corners only affect which foreign lines count as
malformed.)  `uid` is stored into an `int` and `crc` into an
`unsigned long`, hence the wrap-arounds below. -/

/-- Decimal digit value, if any. -/
def decVal (b : Nat) : Option Nat :=
  if 48 ≤ b ∧ b ≤ 57 then some (b - 48) else none

/-- Hex digit value, if any. -/
def hexVal (b : Nat) : Option Nat :=
  if 48 ≤ b ∧ b ≤ 57 then some (b - 48)
  else if 97 ≤ b ∧ b ≤ 102 then some (b - 87)
  else if 65 ≤ b ∧ b ≤ 70 then some (b - 55)
  else none

/-- Consume up to `width` digits (at least one required), most significant
first, returning the accumulated value and the rest of the input. -/
def scanDigits (valOf : Nat → Option Nat) (base : Nat) :
    Nat → Nat → List Nat → Option (Nat × List Nat)
  | 0, acc, s => some (acc, s)
  | _ + 1, acc, [] => some (acc, [])
  | width + 1, acc, b :: t =>
    match valOf b with
    | some d => scanDigits valOf base width (acc * base + d) t
    | none => some (acc, b :: t)

/-- A `%x` field of width `w`: leading C whitespace, optional sign,
optional `0x` prefix, then hex digits.  Returns the (still unsigned)
magnitude, the sign, and the rest. -/
def scanHexField (w : Nat) (s : List Nat) : Option (Bool × Nat × List Nat) :=
  let s1 := s.dropWhile isCws
  let (neg, s2, w2) :=
    match s1 with
    | 45 :: t => (true, t, w - 1)
    | 43 :: t => (false, t, w - 1)
    | _ => (false, s1, w)
  let (s3, w3) :=
    match s2 with
    | 48 :: x :: t =>
      if (x == 120 || x == 88) && 2 < w2 && (hexVal (t.headD 0)).isSome then (t, w2 - 2)
      else (48 :: x :: t, w2)
    | _ => (s2, w2)
  match s3 with
  | [] => none
  | b :: _ =>
    if (hexVal b).isSome ∧ w3 ≠ 0 then
      (scanDigits hexVal 16 w3 0 s3).map (fun p => (neg, p.1, p.2))
    else none

/-- A `%d` field (unbounded width): leading C whitespace, optional sign,
decimal digits. -/
def scanDecField (s : List Nat) : Option (Int × List Nat) :=
  let s1 := s.dropWhile isCws
  let (neg, s2) :=
    match s1 with
    | 45 :: t => (true, t)
    | 43 :: t => (false, t)
    | _ => (false, s1)
  match s2 with
  | [] => none
  | b :: _ =>
    if (decVal b).isSome then
      (scanDigits decVal 10 (s2.length) 0 s2).map
        (fun p => ((if neg then -(p.1 : Int) else (p.1 : Int)), p.2))
    else none

/-- Interpret a `%x` result stored into an `int`: unsigned wrap to 32 bits
then two's-complement reading. -/
def hexToInt32 (neg : Bool) (v : Nat) : Int :=
  let m := (if neg then (4294967296 - v % 4294967296) % 4294967296 else v % 4294967296)
  if m < 2147483648 then (m : Int) else (m : Int) - 4294967296

/-- Interpret a `%lx` result stored into an `unsigned long` (64-bit). -/
def hexToUInt64 (neg : Bool) (v : Nat) : Nat :=
  if neg then (18446744073709551616 - v % 18446744073709551616) % 18446744073709551616
  else v % 18446744073709551616

/-- The whole `sscanf` of a tag suffix: `some (type, uid, crc)` when all
three fields convert (`n == 3`), `none` otherwise. -/
def parseTag (s : List Nat) : Option (Int × Int × Nat) :=
  if strBytes "//~fl~" |>.isPrefixOf s then
    match scanDecField (s.drop 6) with
    | none => none
    | some (ty, r1) =>
      match r1 with
      | 126 :: r2 =>
        match scanHexField 4 r2 with
        | none => none
        | some (negU, u, r3) =>
          match r3 with
          | 126 :: r4 =>
            match scanHexField 8 r4 with
            | none => none
            | some (negC, c, _) => some (ty, hexToInt32 negU u, hexToUInt64 negC c)
          | _ => none
      | _ => none
  else none

/-- `strstr(line, "//~fl~")`: the suffix of the line starting at the first
occurrence of the tag marker, if any. -/
def findTag : List Nat → Option (List Nat)
  | [] => none
  | b :: t =>
    if strBytes "//~fl~" |>.isPrefixOf (b :: t) then some (b :: t)
    else findTag t

/-! ## `Fd_Code_Writer::merge_back(const char *s, int task)`

The file is modelled as the list of the lines successive `fgets` calls
return (their concatenation is the file's byte content, and `ftell` after
reading a line is the running sum of raw line lengths).  A line is a tag
line when `strstr` finds `//~fl~` in it; other lines feed `crc_add`
(`crc_add(line)` covers the bytes before the line's first NUL) and move
`block_end` to the current offset.  On a tag line the three fields are
scanned; a failed scan or a type outside 0..3 sets `tag_error` and breaks
out of the line loop.  Otherwise, when the recomputed CRC differs from the
tag's CRC, `FD_MERGEBACK_GO` applies the edit (callback types 2 and 3 to a
`is_true_widget()` node, code type 1 to an `is_a(ID_Code)` node, looked up
by uid; type 0 is discarded) and every other task counts the divergence.
After a tag line the CRC state is reset and `block_start` moves to the
current offset (`block_end` keeps its previous value). -/

/-- Intermediate state of one scan of the file. -/
structure ScanSt where
  crc : Nat
  ls : Bool
  blockStart : Nat
  blockEnd : Nat
  pos : Nat
  nStruct : Nat
  nCode : Nat
  nCb : Nat
  nUid : Nat
  changed : Bool
  tree : List FlType
deriving DecidableEq

/-- The inner `for (;;)` line loop of `merge_back`, one scan of the file.
`applyGo` is true when the current task is `FD_MERGEBACK_GO`; `flat` is
the file's byte content (for `unindent_block`).  Returns the final state
and the `tag_error` flag. -/
def scanLoop (applyGo : Bool) (flat : List Nat) (st : ScanSt) :
    List (List Nat) → ScanSt × Bool
  | [] => (st, false)
  | line :: rest =>
    let pos' := st.pos + line.length
    match findTag (line.takeWhile (fun b => b != 0)) with
    | none =>
      let c := crc_add (st.crc, st.ls) (line.takeWhile (fun b => b != 0))
      scanLoop applyGo flat
        { st with crc := c.1, ls := c.2, blockEnd := pos', pos := pos' } rest
    | some tagSfx =>
      match parseTag tagSfx with
      | none => (st, true)
      | some (ty, uid, crcTag) =>
        if ty < 0 ∨ 3 < ty then (st, true)
        else
          let st1 :=
            if st.crc ≠ crcTag then
              if applyGo then
                if ty = 2 ∨ ty = 3 then
                  match find_by_uid uid st.tree with
                  | some n =>
                    if n.is_true_widget then
                      { st with
                        tree := updFirst uid
                          (fun m => { m with
                            callback := unindent_block flat st.blockStart st.blockEnd }) st.tree,
                        changed := true }
                    else st
                  | none => st
                else if ty = 1 then
                  match find_by_uid uid st.tree with
                  | some n =>
                    if n.is_code then
                      { st with
                        tree := updFirst uid
                          (fun m => { m with
                            name := unindent_block flat st.blockStart st.blockEnd }) st.tree,
                        changed := true }
                    else st
                  | none => st
                else st
              else
                { st with
                  nStruct := st.nStruct + (if ty = 0 then 1 else 0),
                  nCode := st.nCode + (if ty = 1 then 1 else 0),
                  nCb := st.nCb + (if ty = 2 ∨ ty = 3 then 1 else 0),
                  nUid := st.nUid +
                    (if (ty = 1 ∨ ty = 2 ∨ ty = 3) ∧ find_by_uid uid st.tree = none
                     then 1 else 0) }
            else st
          scanLoop applyGo flat
            { st1 with crc := crcInit, ls := true, blockStart := pos', pos := pos' } rest

/-- The four `task` values `merge_back` is called with
(`FD_MERGEBACK_CHECK` 0, `FD_MERGEBACK_INTERACTIVE` 1, `FD_MERGEBACK_GO`
2, `FD_MERGEBACK_GO_SAFE` 3). -/
inductive MTask where
  | check
  | interactive
  | go
  | goSafe
deriving DecidableEq

/-- The fresh per-scan state at the top of the `for (iter...)` loop. -/
def scanInit (tree : List FlType) : ScanSt :=
  { crc := crcInit, ls := true, blockStart := 0, blockEnd := 0, pos := 0,
    nStruct := 0, nCode := 0, nCb := 0, nUid := 0, changed := false, tree := tree }

/-- `Fd_Code_Writer::merge_back(s, task)`.

`enabled` is `g_project.write_mergeback_data`; `file = none` models a
failed `fl_fopen` (the path could not be opened), otherwise the lines of
the opened file; `choice` models the `fl_choice` answer in the
`FD_MERGEBACK_INTERACTIVE` dialog (`true` = the "Merge" button).  Returns
the function's `int` result and the design tree after the call.

Faithful quirks of the source preserved here: under `FD_MERGEBACK_GO` a
`tag_error` does *not* produce -1 (the scan merely stops; edits applied
before the bad tag are kept and the result is 1/0 from `changed`), and in
the interactive dialog the "Cancel" branch (`c == 0`) sets `ret = 1`. -/
def merge_back (enabled : Bool) (file : Option (List (List Nat)))
    (tree : List FlType) (task : MTask) (choice : Bool) : Int × List FlType :=
  if !enabled then (0, tree)
  else
    match file with
    | none => (0, tree)
    | some lines =>
      let flat := lines.flatten
      match task with
      | .check =>
        let (st, err) := scanLoop false flat (scanInit tree) lines
        if err then (-1, st.tree)
        else
          ((((((0 : Nat) ||| (if st.nStruct ≠ 0 then 1 else 0))
              ||| (if st.nCode ≠ 0 then 2 else 0))
              ||| (if st.nCb ≠ 0 then 4 else 0))
              ||| (if st.nUid ≠ 0 then 8 else 0) : Nat), st.tree)
      | .interactive =>
        let (st, err) := scanLoop false flat (scanInit tree) lines
        if err then (-1, st.tree)
        else if st.nCode = 0 ∧ st.nCb = 0 ∧ st.nStruct = 0 then (0, st.tree)
        else if st.nStruct ≠ 0 ∧ st.nCode = 0 ∧ st.nCb = 0 then (-1, st.tree)
        else if choice then
          let (st2, _) := scanLoop true flat (scanInit st.tree) lines
          (if st2.changed then 1 else 0, st2.tree)
        else (1, st.tree)
      | .go =>
        let (st, _) := scanLoop true flat (scanInit tree) lines
        (if st.changed then 1 else 0, st.tree)
      | .goSafe =>
        let (st, err) := scanLoop false flat (scanInit tree) lines
        if err ∨ st.nStruct ≠ 0 then (-1, st.tree)
        else if st.nCode = 0 ∧ st.nCb = 0 then (0, st.tree)
        else
          let (st2, _) := scanLoop true flat (scanInit st.tree) lines
          (if st2.changed then 1 else 0, st2.tree)

/-! ## Block decomposition of an emitted file (specification side)

To state the merge-back claims we decompose the file independently of the
scanning loop: a *tagged block* is a maximal run of non-tag lines followed
by a tag line, taken in file order (trailing non-tag lines with no tag
after them belong to no block and are never compared).  Each block's CRC
is recomputed from the reset state, mirroring the reset after every tag.
The theorems below prove that `merge_back`'s sequential scan equals this
per-block description. -/

/-- One tagged block: the (NUL-trimmed) non-tag lines, and the tag-line
suffix found by `strstr`. -/
structure MBlock where
  content : List (List Nat)
  tag : List Nat
deriving DecidableEq

/-- Decompose a file's lines into its tagged blocks. -/
def splitBlocks : List (List Nat) → List MBlock
  | [] => []
  | l :: ls =>
    match findTag (l.takeWhile (fun b => b != 0)) with
    | some t => ⟨[], t⟩ :: splitBlocks ls
    | none =>
      match splitBlocks ls with
      | [] => []
      | b :: bs => ⟨(l.takeWhile (fun b => b != 0)) :: b.content, b.tag⟩ :: bs

/-- The CRC state at the start of a block (after a reset). -/
def initCrcSt : CrcSt := (crcInit, true)

/-- Recomputed CRC of a block's content lines from a given starting state. -/
def blockCrcFrom (st0 : CrcSt) (content : List (List Nat)) : Nat :=
  (content.foldl crc_add st0).1

/-- A block whose tag line does not scan, or scans to a type outside
0..`FD_TAG_LAST`. -/
def malformedB (b : MBlock) : Bool :=
  match parseTag b.tag with
  | none => true
  | some (ty, _, _) => decide (ty < 0 ∨ 3 < ty)

/-- The block's recomputed CRC (from `st0`) differs from its tag CRC. -/
def divergesFrom (st0 : CrcSt) (b : MBlock) : Bool :=
  match parseTag b.tag with
  | none => false
  | some (_, _, c) => blockCrcFrom st0 b.content != c

/-- The block's recomputed CRC (from the reset state) differs from its
tag CRC. -/
def blockDiverges (b : MBlock) : Bool := divergesFrom initCrcSt b

/-- Tag type 0 (`FD_TAG_GENERIC`). -/
def kindStruct (b : MBlock) : Bool :=
  match parseTag b.tag with
  | some (ty, _, _) => ty == 0
  | none => false

/-- Tag type 1 (`FD_TAG_CODE`). -/
def kindCode (b : MBlock) : Bool :=
  match parseTag b.tag with
  | some (ty, _, _) => ty == 1
  | none => false

/-- Tag type 2 or 3 (`FD_TAG_MENU_CALLBACK` / `FD_TAG_WIDGET_CALLBACK`). -/
def kindCb (b : MBlock) : Bool :=
  match parseTag b.tag with
  | some (ty, _, _) => ty == 2 || ty == 3
  | none => false

/-- A code/callback tag whose uid has no node in the tree. -/
def kindMiss (tree : List FlType) (b : MBlock) : Bool :=
  match parseTag b.tag with
  | some (ty, u, _) => (ty == 1 || ty == 2 || ty == 3) && (find_by_uid u tree).isNone
  | none => false

/-- A divergent generic/structural block. -/
def divStructB (b : MBlock) : Bool := blockDiverges b && kindStruct b

/-- A divergent code block. -/
def divCodeB (b : MBlock) : Bool := blockDiverges b && kindCode b

/-- A divergent callback block. -/
def divCbB (b : MBlock) : Bool := blockDiverges b && kindCb b

/-- A divergent code/callback block whose uid has no node. -/
def divMissB (tree : List FlType) (b : MBlock) : Bool :=
  blockDiverges b && kindMiss tree b

/-- Count of divergent blocks satisfying `p`, first block CRC'd from
`st0`, later blocks from the reset state; counting stops at the first
malformed tag (where the scan aborts). -/
def countDiv (p : MBlock → Bool) (st0 : CrcSt) : List MBlock → Nat
  | [] => 0
  | b :: bs =>
    if malformedB b then 0
    else (if divergesFrom st0 b && p b then 1 else 0) + countDiv p initCrcSt bs

/-- `FD_MERGEBACK_GO` would apply an edit for this block: the tag is a
callback type naming a `is_true_widget()` node, or a code type naming an
`is_a(ID_Code)` node. -/
def kindApplicable (tree : List FlType) (b : MBlock) : Bool :=
  match parseTag b.tag with
  | some (ty, u, _) =>
    if ty == 2 || ty == 3 then
      match find_by_uid u tree with
      | some n => n.is_true_widget
      | none => false
    else if ty == 1 then
      match find_by_uid u tree with
      | some n => n.is_code
      | none => false
    else false
  | none => false

/-- Some block before the first malformed tag is divergent and applicable
(first block CRC'd from `st0`). -/
def goAnyFrom (st0 : CrcSt) (tree : List FlType) : List MBlock → Bool
  | [] => false
  | b :: bs =>
    if malformedB b then false
    else (divergesFrom st0 b && kindApplicable tree b) || goAnyFrom initCrcSt tree bs

/-! # Theorems -/

/-- C9: with `write_mergeback_data` disabled, `merge_back` returns 0 for
every file (opened or not), every task and every dialog answer, leaving
the design tree untouched; and with the option enabled but the file not
openable it likewise returns 0 for every task. -/
theorem merge_back_disabled_or_unopened (file : Option (List (List Nat)))
    (tree : List FlType) (task : MTask) (choice : Bool) :
    merge_back false file tree task choice = (0, tree)
      ∧ merge_back true none tree task choice = (0, tree) :=
  ⟨rfl, rfl⟩

/-- C3 counterexample: calling `tag` in a writer state whose
`line_start_flag` is false leaves the flag false — the claim that the flag
is true immediately after every `tag` call is refuted at this input (the
CRC is reset, but `tag` never assigns `block_line_start_`). -/
theorem tag_keeps_line_start_cex :
    (tag true (crcInit, false) 1 171).1 = (crcInit, false)
      ∧ ¬ ((tag true (crcInit, false) 1 171).1).2 = true := by
  decide

/-- C3 amended: immediately after `tag(kind, uid)` returns, `block_crc`
equals the CRC32 initial value (whether or not mergeback tagging is
enabled), and `line_start_flag` is exactly what it was before the call. -/
theorem tag_resets_crc_preserves_line_start (enabled : Bool) (st : CrcSt)
    (ty uid : Nat) :
    (tag enabled st ty uid).1 = (crcInit, st.2) :=
  rfl

/-- C5: in `write_cstring`, a `'?'` byte whose immediately preceding input
byte is also `'?'` is emitted as the two characters `\?` (preceded only by
the soft line wrap when the line is full); in particular
`write_cstring("a??b")` emits exactly `"a?\?b"` including the surrounding
double quotes. -/
theorem write_cstring_trigraph :
    (∀ (utf8 : Bool) (ll : Nat) (rest : List Nat),
        wcsLoop utf8 (some 63) ll (63 :: rest)
          = (if 77 ≤ ll then [92, 10] else []) ++ [92, 63]
            ++ wcsLoop utf8 (some 63) ((if 77 ≤ ll then 0 else ll) + 2) rest)
      ∧ write_cstring false false false (some (strBytes "a??b")) 4
          = strBytes "\"a?\\?b\"" := by
  exact ⟨fun utf8 ll rest => rfl, by decide⟩

/-- C2 counterexample: a file whose only line carries a malformed tag
(type 9 is outside 0..3).  `merge_back(path, GO)` returns 0 for it, not
the -1 the claim requires for a tag error: the `FD_MERGEBACK_GO` branch
of the result dispatch never consults `tag_error`. -/
theorem merge_back_go_tag_error_cex :
    merge_back true (some [strBytes "//~fl~9~0000~00000000~~\n"]) [] .go false = (0, [])
      ∧ (merge_back true (some [strBytes "//~fl~9~0000~00000000~~\n"]) [] .go false).1 ≠ -1 := by
  decide

/-- C6 counterexample: on the two bytes 0x01, '9' `write_cstring` emits
`"\1""9"` — the split closes and immediately reopens the quote with no
byte in between — not the eight-character `"\1" "9"` (with a space) the
claim states. -/
theorem write_cstring_octal_split_cex :
    write_cstring false false false (some [1, 57]) 2 = [34, 92, 49, 34, 34, 57, 34]
      ∧ write_cstring false false false (some [1, 57]) 2 ≠ strBytes "\"\\1\" \"9\"" := by
  decide

/-- C7 counterexample: `unindent` keeps the second of two adjacent
carriage returns (only one `'\r'` is skipped per loop iteration), so on
`a\r\rb` the output still contains a `'\r'` — refuting the claim that
every carriage-return byte is removed. -/
theorem unindent_double_cr_cex :
    unindent [97, 13, 13, 98] = [97, 13, 98] ∧ 13 ∈ unindent [97, 13, 13, 98] := by
  decide

/-- C4 counterexample: `[97, 13, 13, 98]` and `[97, 98]` differ only in
carriage-return bytes, yet fed through `crc_add` from the same initial
state they produce different `block_crc` values: of two adjacent `'\r'`
bytes only the first is dropped, the second is CRC'd. -/
theorem crc_add_double_cr_cex :
    [97, 13, 13, 98].filter (fun b => b != 13) = [97, 98]
      ∧ (crc_add (crcInit, true) [97, 13, 13, 98]).1 ≠ (crc_add (crcInit, true) [97, 98]).1 := by
  decide

/-- C10: `write_cc` and `write_hc` read `c[n-1]` unconditionally, so they
are well-defined exactly when `1 ≤ n ≤ |c|`; under that precondition they
emit the indent, the first `n` bytes of the code, a `';'` exactly when
`c[n-1]` is neither `'}'` nor `';'`, the optional comment, and a newline. -/
theorem write_cc_hc_spec (ind com c : List Nat) (n : Nat) :
    ((1 ≤ n ∧ n ≤ c.length) →
      ∃ cc, c.get? (n - 1) = some cc ∧
        write_cc ind n c com
          = some (ind ++ (c.take n).takeWhile (fun b => b != 0)
              ++ (if cc = 125 ∨ cc = 59 then [] else [59])
              ++ (if com = [] then [] else 32 :: com) ++ [10]) ∧
        write_hc ind n c com
          = some (ind ++ (c.take n).takeWhile (fun b => b != 0)
              ++ (if cc = 125 ∨ cc = 59 then [] else [59])
              ++ (if com = [] then [] else 32 :: com) ++ [10]))
      ∧ (write_cc ind n c com = none ↔ n = 0 ∨ c.length < n)
      ∧ (write_hc ind n c com = none ↔ n = 0 ∨ c.length < n) := by
  refine ⟨?_, ?_, ?_⟩
  · rintro ⟨h1, h2⟩
    have hn : n - 1 < c.length := by omega
    have hg : c.get? (n - 1) = some (c.get ⟨n - 1, hn⟩) := List.get?_eq_get hn
    refine ⟨c.get ⟨n - 1, hn⟩, hg, ?_, ?_⟩
    · unfold write_cc
      rw [if_neg (show ¬ n = 0 by omega), hg]
    · unfold write_hc
      rw [if_neg (show ¬ n = 0 by omega), hg]
  · by_cases hz : n = 0
    · have w : write_cc ind n c com = none := by
        unfold write_cc
        rw [if_pos hz]
      rw [w]
      simp [hz]
    · rcases hg : c.get? (n - 1) with _ | cc
      · have hlen : c.length ≤ n - 1 := List.get?_eq_none.mp hg
        have w : write_cc ind n c com = none := by
          unfold write_cc
          rw [if_neg hz, hg]
        rw [w]
        constructor
        · intro _
          right
          omega
        · intro _
          rfl
      · have hlt : n - 1 < c.length := by
          rcases List.get?_eq_some.mp hg with ⟨h, _⟩
          exact h
        have w : write_cc ind n c com ≠ none := by
          unfold write_cc
          rw [if_neg hz, hg]
          simp
        constructor
        · intro h
          exact absurd h w
        · intro h
          exfalso
          omega
  · by_cases hz : n = 0
    · have w : write_hc ind n c com = none := by
        unfold write_hc
        rw [if_pos hz]
      rw [w]
      simp [hz]
    · rcases hg : c.get? (n - 1) with _ | cc
      · have hlen : c.length ≤ n - 1 := List.get?_eq_none.mp hg
        have w : write_hc ind n c com = none := by
          unfold write_hc
          rw [if_neg hz, hg]
        rw [w]
        constructor
        · intro _
          right
          omega
        · intro _
          rfl
      · have hlt : n - 1 < c.length := by
          rcases List.get?_eq_some.mp hg with ⟨h, _⟩
          exact h
        have w : write_hc ind n c com ≠ none := by
          unfold write_hc
          rw [if_neg hz, hg]
          simp
        constructor
        · intro h
          exact absurd h w
        · intro h
          exfalso
          omega

/-- C10 witness: at `n = 2`, `c = "ab"` the read is in bounds, the last
byte is `'b'` and a `';'` is appended. -/
theorem write_cc_hc_spec_witness :
    ∃ cc, [97, 98].get? (2 - 1) = some cc ∧
      write_cc [] 2 [97, 98] []
        = some ([] ++ ([97, 98].take 2).takeWhile (fun b => b != 0)
            ++ (if cc = 125 ∨ cc = 59 then [] else [59])
            ++ (if ([] : List Nat) = [] then [] else 32 :: []) ++ [10]) ∧
      write_hc [] 2 [97, 98] []
        = some ([] ++ ([97, 98].take 2).takeWhile (fun b => b != 0)
            ++ (if cc = 125 ∨ cc = 59 then [] else [59])
            ++ (if ([] : List Nat) = [] then [] else 32 :: []) ++ [10]) :=
  (write_cc_hc_spec [] [] [97, 98] 2).1 (by decide)

/-- The octal escape uses exactly enough digits for the byte value: one
digit below 8, two below 64, three up to 255. -/
theorem octalBytes_length :
    ∀ b : Nat, b < 256 →
      (octalBytes b).length = (if b < 8 then 1 else if b < 64 then 2 else 3) := by
  decide

/-- C6 amended: a byte outside the directly-escaped and printable
categories is emitted as a backslash-octal escape with exactly enough
octal digits for its value, and when the next input byte is a hex digit
the literal is split by a closing quote immediately followed by the
reopening quote (with no byte between them except the soft line-wrap
newline); in particular `write_cstring` on the bytes 0x01, '9' emits
`"\1""9"` — without a space between the adjacent literals. -/
theorem write_cstring_octal_spec :
    (∀ (utf8 : Bool) (prev : Option Nat) (ll b : Nat) (rest : List Nat),
        ¬(b = 8 ∨ b = 9 ∨ b = 10 ∨ b = 12 ∨ b = 13 ∨ b = 34 ∨ b = 39 ∨ b = 92) →
        ¬(32 ≤ b ∧ b < 127) →
        ¬(utf8 = true ∧ 128 ≤ b) →
        b < 256 →
        wcsLoop utf8 prev ll (b :: rest)
            = (octalStep b ll (nextIsHex rest)).1
              ++ wcsLoop utf8 (some b) (octalStep b ll (nextIsHex rest)).2 rest
          ∧ (octalBytes b).length = (if b < 8 then 1 else if b < 64 then 2 else 3))
      ∧ write_cstring false false false (some [1, 57]) 2 = [34, 92, 49, 34, 34, 57, 34] := by
  refine ⟨?_, by decide⟩
  intro utf8 prev ll b rest h1 h2 h3 h4
  refine ⟨?_, octalBytes_length b h4⟩
  have h63 : b ≠ 63 := by omega
  have c1 : ¬((b == 8 || b == 9 || b == 10 || b == 12 || b == 13 || b == 34 || b == 39
      || b == 92 || (b == 63 && prev == some 63)) = true) := by
    simp only [Bool.or_eq_true, Bool.and_eq_true, beq_iff_eq, h63, false_and, or_false]
    omega
  have c2 : ¬((decide (32 ≤ b) && decide (b < 127)) = true) := by
    simp only [Bool.and_eq_true, decide_eq_true_eq]
    omega
  have c3 : ¬((utf8 && decide (128 ≤ b)) = true) := by
    simp only [Bool.and_eq_true, decide_eq_true_eq]
    exact h3
  simp only [wcsLoop, if_neg c1, if_neg c2, if_neg c3]
  cases rest with
  | nil => simp [octalStep, nextIsHex]
  | cons next rest2 =>
    by_cases hx : isHexDigitB next = true
    · simp [octalStep, nextIsHex, hx, List.append_assoc]
    · simp [octalStep, nextIsHex, hx, List.append_assoc]

/-- C6 witness: byte 200 (outside every direct category) at line length 1
with no following byte. -/
theorem write_cstring_octal_spec_witness :
    wcsLoop false none 1 (200 :: [])
        = (octalStep 200 1 (nextIsHex [])).1
          ++ wcsLoop false (some 200) (octalStep 200 1 (nextIsHex [])).2 []
      ∧ (octalBytes 200).length = (if (200 : Nat) < 8 then 1 else if (200 : Nat) < 64 then 2 else 3) :=
  write_cstring_octal_spec.1 false none 1 200 [] (by decide) (by decide) (by decide) (by decide)

/-- After a dropped carriage return, processing continues exactly as in
mid-line mode provided the next byte is not another carriage return. -/
theorem crcAddGo_afterCR_eq_mid (crc : Nat) (post : List Nat) (h : post.head? ≠ some 13) :
    crcAddGo .afterCR crc post = crcAddGo .mid crc post := by
  cases post with
  | nil => rfl
  | cons b t =>
    have hb : b ≠ 13 := by simpa using h
    cases h10 : b == 10 with
    | true => simp [crcAddGo, h10, hb]
    | false =>
      have h13 : (b == 13) = false := by simpa using hb
      simp [crcAddGo, h10, h13]

/-- Inserting a single carriage return that is adjacent to no other
carriage return leaves the CRC automaton's result unchanged, from any
program point other than a pending carriage-return skip at the insertion
point itself. -/
theorem crcAddGo_insert_cr :
    ∀ (pre : List Nat) (m : CrcMode) (crc : Nat) (post : List Nat),
      pre.getLast? ≠ some 13 → post.head? ≠ some 13 → ¬(m = .afterCR ∧ pre = []) →
      crcAddGo m crc (pre ++ 13 :: post) = crcAddGo m crc (pre ++ post) := by
  intro pre
  induction pre with
  | nil =>
    intro m crc post _ hpost hm
    cases m with
    | lineStart => rfl
    | mid => exact crcAddGo_afterCR_eq_mid crc post hpost
    | afterCR => exact absurd ⟨rfl, rfl⟩ hm
  | cons x pre2 ih =>
    intro m crc post hpre hpost _
    have hpre2 : pre2.getLast? ≠ some 13 := by
      cases pre2 with
      | nil => simp
      | cons y ys => rwa [List.getLast?_cons_cons] at hpre
    simp only [List.cons_append]
    cases m with
    | lineStart =>
      cases hws : isCws x with
      | true =>
        simp only [crcAddGo, hws, if_true]
        exact ih .lineStart crc post hpre2 hpost (by simp)
      | false =>
        cases hz : x == 0 with
        | true =>
          simp only [crcAddGo, hws, hz, Bool.false_eq_true, if_false, if_true]
          exact ih .lineStart (crc32_update crc 0) post hpre2 hpost (by simp)
        | false =>
          simp only [crcAddGo, hws, hz, Bool.false_eq_true, if_false]
          exact ih .mid (crc32_update crc x) post hpre2 hpost (by simp)
    | mid =>
      cases h13 : x == 13 with
      | true =>
        have hx : x = 13 := by simpa using h13
        have hne : pre2 ≠ [] := by
          intro hn
          subst hn
          subst hx
          simp at hpre
        simp only [crcAddGo, h13, if_true]
        exact ih .afterCR crc post hpre2 hpost (fun hc => hne hc.2)
      | false =>
        cases h10 : x == 10 with
        | true =>
          simp only [crcAddGo, h13, h10, Bool.false_eq_true, if_false, if_true]
          exact ih .lineStart (crc32_update crc 10) post hpre2 hpost (by simp)
        | false =>
          simp only [crcAddGo, h13, h10, Bool.false_eq_true, if_false]
          exact ih .mid (crc32_update crc x) post hpre2 hpost (by simp)
    | afterCR =>
      cases h10 : x == 10 with
      | true =>
        simp only [crcAddGo, h10, if_true]
        exact ih .lineStart (crc32_update crc 10) post hpre2 hpost (by simp)
      | false =>
        simp only [crcAddGo, h10, Bool.false_eq_true, if_false]
        exact ih .mid (crc32_update crc x) post hpre2 hpost (by simp)

/-- In line-start mode a run of whitespace bytes is consumed without any
CRC contribution. -/
theorem crcAddGo_ws_run (crc : Nat) (post : List Nat) :
    ∀ run : List Nat, (∀ b ∈ run, isCws b = true) →
      crcAddGo .lineStart crc (run ++ post) = crcAddGo .lineStart crc post := by
  intro run
  induction run with
  | nil => intro _; rfl
  | cons w ws ih =>
    intro h
    have hw : isCws w = true := h w (by simp)
    simp only [List.cons_append, crcAddGo, hw, if_true]
    exact ih (fun b hb => h b (List.mem_cons_of_mem _ hb))

/-- Inserting a run of whitespace bytes immediately after a newline byte
leaves the CRC automaton's result unchanged. -/
theorem crcAddGo_ws_after_nl :
    ∀ (pre : List Nat) (m : CrcMode) (crc : Nat) (run post : List Nat),
      pre.getLast? = some 10 → (∀ b ∈ run, isCws b = true) →
      crcAddGo m crc (pre ++ (run ++ post)) = crcAddGo m crc (pre ++ post) := by
  intro pre
  induction pre with
  | nil =>
    intro m crc run post hpre _
    simp at hpre
  | cons x pre2 ih =>
    intro m crc run post hpre hrun
    cases pre2 with
    | nil =>
      have hx : x = 10 := by simpa using hpre
      subst hx
      simp only [List.cons_append, List.nil_append]
      cases m with
      | lineStart =>
        have e1 : crcAddGo .lineStart crc (10 :: (run ++ post))
            = crcAddGo .lineStart crc (run ++ post) := rfl
        have e2 : crcAddGo .lineStart crc (10 :: post) = crcAddGo .lineStart crc post := rfl
        rw [e1, e2]
        exact crcAddGo_ws_run crc post run hrun
      | mid =>
        have e1 : crcAddGo .mid crc (10 :: (run ++ post))
            = crcAddGo .lineStart (crc32_update crc 10) (run ++ post) := rfl
        have e2 : crcAddGo .mid crc (10 :: post)
            = crcAddGo .lineStart (crc32_update crc 10) post := rfl
        rw [e1, e2]
        exact crcAddGo_ws_run (crc32_update crc 10) post run hrun
      | afterCR =>
        have e1 : crcAddGo .afterCR crc (10 :: (run ++ post))
            = crcAddGo .lineStart (crc32_update crc 10) (run ++ post) := rfl
        have e2 : crcAddGo .afterCR crc (10 :: post)
            = crcAddGo .lineStart (crc32_update crc 10) post := rfl
        rw [e1, e2]
        exact crcAddGo_ws_run (crc32_update crc 10) post run hrun
    | cons y ys =>
      have hpre2 : (y :: ys).getLast? = some 10 := by rwa [List.getLast?_cons_cons] at hpre
      simp only [List.cons_append]
      cases m with
      | lineStart =>
        cases hws : isCws x with
        | true =>
          simp only [crcAddGo, hws, if_true]
          exact ih .lineStart crc run post hpre2 hrun
        | false =>
          cases hz : x == 0 with
          | true =>
            simp only [crcAddGo, hws, hz, Bool.false_eq_true, if_false, if_true]
            exact ih .lineStart (crc32_update crc 0) run post hpre2 hrun
          | false =>
            simp only [crcAddGo, hws, hz, Bool.false_eq_true, if_false]
            exact ih .mid (crc32_update crc x) run post hpre2 hrun
      | mid =>
        cases h13 : x == 13 with
        | true =>
          simp only [crcAddGo, h13, if_true]
          exact ih .afterCR crc run post hpre2 hrun
        | false =>
          cases h10 : x == 10 with
          | true =>
            simp only [crcAddGo, h13, h10, Bool.false_eq_true, if_false, if_true]
            exact ih .lineStart (crc32_update crc 10) run post hpre2 hrun
          | false =>
            simp only [crcAddGo, h13, h10, Bool.false_eq_true, if_false]
            exact ih .mid (crc32_update crc x) run post hpre2 hrun
      | afterCR =>
        cases h10 : x == 10 with
        | true =>
          simp only [crcAddGo, h10, if_true]
          exact ih .lineStart (crc32_update crc 10) run post hpre2 hrun
        | false =>
          simp only [crcAddGo, h10, Bool.false_eq_true, if_false]
          exact ih .mid (crc32_update crc x) run post hpre2 hrun

/-- C4 amended: feeding two byte streams through `crc_add` from the same
`(block_crc, line_start_flag)` state yields equal results when the streams
differ only by (a) a carriage return that neither follows nor precedes
another carriage return, or (b) whitespace inserted at the start of a
line — immediately after a newline byte, or at the very start while the
line-start flag is set.  (The unrestricted claim is refuted by
`crc_add_double_cr_cex`: of two adjacent carriage returns the second is
CRC'd.) -/
theorem crc_add_normalization_amended (st : CrcSt) (pre run post : List Nat) :
    (pre.getLast? ≠ some 13 → post.head? ≠ some 13 →
        crc_add st (pre ++ 13 :: post) = crc_add st (pre ++ post))
      ∧ ((∀ b ∈ run, isCws b = true) → pre.getLast? = some 10 →
        crc_add st (pre ++ (run ++ post)) = crc_add st (pre ++ post))
      ∧ ((∀ b ∈ run, isCws b = true) → st.2 = true →
        crc_add st (run ++ post) = crc_add st post) := by
  refine ⟨?_, ?_, ?_⟩
  · intro h1 h2
    unfold crc_add
    apply crcAddGo_insert_cr pre _ st.1 post h1 h2
    rcases st with ⟨c, ls⟩
    cases ls <;> simp
  · intro hrun hnl
    unfold crc_add
    exact crcAddGo_ws_after_nl pre _ st.1 run post hnl hrun
  · intro hrun hls
    unfold crc_add
    rw [hls, if_pos rfl]
    exact crcAddGo_ws_run st.1 post run hrun

/-- C4 witness: inserting an isolated carriage return between `a` and
`b`, and inserting the whitespace run space-tab after a newline, both
leave the CRC state unchanged at concrete inputs. -/
theorem crc_add_normalization_amended_witness :
    crc_add (crcInit, true) ([97] ++ 13 :: [98]) = crc_add (crcInit, true) ([97] ++ [98])
      ∧ crc_add (crcInit, true) ([97, 10] ++ ([32, 9] ++ [98]))
          = crc_add (crcInit, true) ([97, 10] ++ [98]) :=
  ⟨(crc_add_normalization_amended (crcInit, true) [97] [32, 9] [98]).1
      (by decide) (by decide),
   (crc_add_normalization_amended (crcInit, true) [97, 10] [32, 9] [98]).2.1
      (by decide) (by decide)⟩

/-- State correspondence between `unindent`'s loop and the
specification-side un-indent: line-start with both skips available is
budget 2, with one skip spent budget 1, mid-line budget 0, and the
point after a dropped carriage return behaves like mid-line provided the
next byte is not another carriage return. -/
theorem unindent_spec_aux :
    ∀ s : List Nat, 0 ∉ s → noAdjCR s = true →
      unindentGo .ls2 s = unindentSpecGo 2 s
        ∧ unindentGo .ls1 s = unindentSpecGo 1 s
        ∧ unindentGo .mid s = unindentSpecGo 0 s
        ∧ (s.head? ≠ some 13 → unindentGo .afterCR s = unindentSpecGo 0 s) := by
  intro s
  induction s with
  | nil => intro _ _; exact ⟨rfl, rfl, rfl, fun _ => rfl⟩
  | cons b t ih =>
    intro h0 hch
    have hb0 : b ≠ 0 := fun h => h0 (by simp [h])
    have hbeq0 : (b == 0) = false := by simpa using hb0
    have h0t : 0 ∉ t := fun h => h0 (List.mem_cons_of_mem _ h)
    have hcht : noAdjCR t = true := by
      cases t with
      | nil => rfl
      | cons c t2 =>
        simp only [noAdjCR, Bool.and_eq_true] at hch
        exact hch.2
    obtain ⟨iha, ihb, ihc, ihd⟩ := ih h0t hcht
    refine ⟨?_, ?_, ?_, ?_⟩
    · -- ls2 / budget 2
      cases hws : isCws b with
      | true =>
        cases h13 : b == 13 with
        | true => simp [unindentGo, unindentSpecGo, hbeq0, hws, h13, ihb]
        | false => simp [unindentGo, unindentSpecGo, hbeq0, hws, h13, ihb]
      | false =>
        have h13 : (b == 13) = false := by
          cases h : b == 13 with
          | true => rw [show b = 13 from by simpa using h] at hws; simp [isCws] at hws
          | false => rfl
        have h10 : (b == 10) = false := by
          cases h : b == 10 with
          | true => rw [show b = 10 from by simpa using h] at hws; simp [isCws] at hws
          | false => rfl
        simp [unindentGo, unindentSpecGo, hbeq0, hws, h13, h10, ihc]
    · -- ls1 / budget 1
      cases hws : isCws b with
      | true =>
        cases h13 : b == 13 with
        | true => simp [unindentGo, unindentSpecGo, hbeq0, hws, h13, ihc]
        | false => simp [unindentGo, unindentSpecGo, hbeq0, hws, h13, ihc]
      | false =>
        have h13 : (b == 13) = false := by
          cases h : b == 13 with
          | true => rw [show b = 13 from by simpa using h] at hws; simp [isCws] at hws
          | false => rfl
        have h10 : (b == 10) = false := by
          cases h : b == 10 with
          | true => rw [show b = 10 from by simpa using h] at hws; simp [isCws] at hws
          | false => rfl
        simp [unindentGo, unindentSpecGo, hbeq0, hws, h13, h10, ihc]
    · -- mid / budget 0
      cases h13 : b == 13 with
      | true =>
        have hx : b = 13 := by simpa using h13
        have ht13 : t.head? ≠ some 13 := by
          cases t with
          | nil => simp
          | cons c t2 =>
            intro hh
            have hc : c = 13 := by simpa using hh
            simp only [noAdjCR, Bool.and_eq_true] at hch
            rw [hx, hc] at hch
            simp at hch
        simp [unindentGo, unindentSpecGo, hbeq0, h13, ihd ht13]
      | false =>
        cases h10 : b == 10 with
        | true => simp [unindentGo, unindentSpecGo, hbeq0, h13, h10, iha]
        | false => simp [unindentGo, unindentSpecGo, hbeq0, h13, h10, ihc]
    · -- afterCR / budget 0 (next byte is not a carriage return)
      intro hhd
      have hb13 : b ≠ 13 := by simpa using hhd
      have h13 : (b == 13) = false := by simpa using hb13
      cases h10 : b == 10 with
      | true => simp [unindentGo, unindentSpecGo, hbeq0, h13, h10, iha]
      | false => simp [unindentGo, unindentSpecGo, hbeq0, h13, h10, ihc]

/-- C7 amended: on inputs with no NUL byte and no two adjacent carriage
returns, `unindent` removes, at the start of every line, up to two
leading whitespace bytes (a carriage return there counts as one of the
two), removes every other carriage-return byte, and leaves all other
bytes unchanged and in order — it equals the specification-side
`unindentSpec` written from exactly those words.  (The unrestricted
claim is refuted by `unindent_double_cr_cex`: the second of two adjacent
carriage returns is kept.) -/
theorem unindent_matches_spec (s : List Nat) (h0 : 0 ∉ s) (hcr : noAdjCR s = true) :
    unindent s = unindentSpec s :=
  (unindent_spec_aux s h0 hcr).1

/-- C7 witness: a concrete block with indented lines, a lone carriage
return and mid-line whitespace. -/
theorem unindent_matches_spec_witness :
    unindent (strBytes "  a\r\n \tb mid\n") = unindentSpec (strBytes "  a\r\n \tb mid\n") :=
  unindent_matches_spec (strBytes "  a\r\n \tb mid\n") (by decide) (by decide)

/-- `strcmp` of equal strings is 0. -/
theorem cmpBytes_self : ∀ x : List Nat, cmpBytes x x = 0 := by
  intro x
  induction x with
  | nil => rfl
  | cons a s ih => simp [cmpBytes, ih]

/-- A line just inserted into a text tree is found by the search. -/
theorem tt_mem_insert (x : List Nat) : ∀ t : TextTree, tt_mem x (tt_insert x t) = true := by
  intro t
  induction t with
  | nil => simp [tt_insert, tt_mem, cmpBytes_self]
  | node l y r ihl ihr =>
    by_cases h0 : cmpBytes x y = 0
    · simp [tt_insert, tt_mem, h0]
    · by_cases hlt : cmpBytes x y < 0
      · simp [tt_insert, tt_mem, h0, hlt, ihl]
      · simp [tt_insert, tt_mem, h0, hlt, ihr]

/-- C8: the first `write_h_once` of a line not yet in the header set
emits the line and reports it new; an immediately repeated call is a
no-op returning 0.  The first `write_c_once` of a line in neither set
emits the line to the code stream and reports it new; a repeated call is
a no-op returning 0; and a line first emitted to the header via
`write_h_once` is never emitted to source by a later `write_c_once`. -/
theorem write_once_spec (st : OnceSt) (buf : List Nat) (enabled : Bool) :
    (tt_mem buf st.text_in_header = false →
      write_h_once st buf
        = (1, { st with text_in_header := tt_insert buf st.text_in_header,
                        header_out := st.header_out ++ buf ++ [10] }))
      ∧ write_h_once ((write_h_once st buf).2) buf = (0, (write_h_once st buf).2)
      ∧ (tt_mem buf st.text_in_header = false → tt_mem buf st.text_in_code = false →
          (write_c_once enabled st buf).1 = 1
            ∧ (write_c_once enabled st buf).2.code_out = st.code_out ++ buf ++ [10])
      ∧ write_c_once enabled ((write_c_once enabled st buf).2) buf
          = (0, (write_c_once enabled st buf).2)
      ∧ write_c_once enabled ((write_h_once st buf).2) buf = (0, (write_h_once st buf).2) := by
  refine ⟨?_, ?_, ?_, ?_, ?_⟩
  · intro h
    simp [write_h_once, h]
  · by_cases h : tt_mem buf st.text_in_header = true
    · simp [write_h_once, h]
    · have h' : tt_mem buf st.text_in_header = false := by simpa using h
      simp [write_h_once, h', tt_mem_insert]
  · intro h1 h2
    simp [write_c_once, h1, h2]
  · by_cases h1 : tt_mem buf st.text_in_header = true
    · simp [write_c_once, h1]
    · have h1' : tt_mem buf st.text_in_header = false := by simpa using h1
      by_cases h2 : tt_mem buf st.text_in_code = true
      · simp [write_c_once, h1', h2]
      · have h2' : tt_mem buf st.text_in_code = false := by simpa using h2
        simp [write_c_once, h1', h2', tt_mem_insert]
  · by_cases h1 : tt_mem buf st.text_in_header = true
    · simp [write_h_once, write_c_once, h1]
    · have h1' : tt_mem buf st.text_in_header = false := by simpa using h1
      simp [write_h_once, write_c_once, h1', tt_mem_insert]

/-- C8 witness: from an empty writer, `write_h_once` and `write_c_once`
of the line `a` both emit and report new. -/
theorem write_once_spec_witness :
    write_h_once ⟨.nil, .nil, [], [], (crcInit, true)⟩ [97]
        = (1, { (⟨.nil, .nil, [], [], (crcInit, true)⟩ : OnceSt) with
                text_in_header := tt_insert [97] TextTree.nil,
                header_out := [] ++ [97] ++ [10] })
      ∧ (write_c_once false ⟨.nil, .nil, [], [], (crcInit, true)⟩ [97]).1 = 1
      ∧ (write_c_once false ⟨.nil, .nil, [], [], (crcInit, true)⟩ [97]).2.code_out
          = [] ++ [97] ++ [10] :=
  ⟨(write_once_spec ⟨.nil, .nil, [], [], (crcInit, true)⟩ [97] false).1 rfl,
   ((write_once_spec ⟨.nil, .nil, [], [], (crcInit, true)⟩ [97] false).2.2.1 rfl rfl).1,
   ((write_once_spec ⟨.nil, .nil, [], [], (crcInit, true)⟩ [97] false).2.2.1 rfl rfl).2⟩

/-- Prepending a content line to the first block moves the line into that
block's CRC fold; the malformed test only reads the tag. -/
theorem any_malformed_match (l2 : List Nat) (bl : List MBlock) :
    (match bl with
      | [] => ([] : List MBlock)
      | b :: bs => ⟨l2 :: b.content, b.tag⟩ :: bs).any malformedB
      = bl.any malformedB := by
  cases bl with
  | nil => rfl
  | cons b bs => rfl

/-- Prepending a content line to the first block advances the starting
CRC state instead, for any block predicate that ignores the content. -/
theorem countDiv_match_content (p : MBlock → Bool)
    (hp : ∀ (l2 : List Nat) (c : List (List Nat)) (t : List Nat), p ⟨l2 :: c, t⟩ = p ⟨c, t⟩)
    (st0 : CrcSt) (l2 : List Nat) (bl : List MBlock) :
    countDiv p st0
        (match bl with
          | [] => ([] : List MBlock)
          | b :: bs => ⟨l2 :: b.content, b.tag⟩ :: bs)
      = countDiv p (crc_add st0 l2) bl := by
  cases bl with
  | nil => rfl
  | cons b bs =>
    simp only [countDiv]
    rw [hp l2 b.content b.tag]
    rfl

/-- A classify-mode scan (`task ≠ FD_MERGEBACK_GO`) never touches the
tree, reports a tag error exactly when some block's tag is malformed, and
accumulates each divergence counter as the per-block count of divergent
blocks of that kind — the first block's CRC continuing from the incoming
state, every later block from the reset state. -/
theorem scanLoop_classify (flat : List Nat) :
    ∀ (lines : List (List Nat)) (st : ScanSt),
      (scanLoop false flat st lines).1.tree = st.tree
        ∧ (scanLoop false flat st lines).2 = (splitBlocks lines).any malformedB
        ∧ (scanLoop false flat st lines).1.nStruct
            = st.nStruct + countDiv kindStruct (st.crc, st.ls) (splitBlocks lines)
        ∧ (scanLoop false flat st lines).1.nCode
            = st.nCode + countDiv kindCode (st.crc, st.ls) (splitBlocks lines)
        ∧ (scanLoop false flat st lines).1.nCb
            = st.nCb + countDiv kindCb (st.crc, st.ls) (splitBlocks lines)
        ∧ (scanLoop false flat st lines).1.nUid
            = st.nUid + countDiv (kindMiss st.tree) (st.crc, st.ls) (splitBlocks lines) := by
  intro lines
  induction lines with
  | nil =>
    intro st
    simp [scanLoop, splitBlocks, countDiv]
  | cons l rest ih =>
    intro st
    rcases hft : findTag (l.takeWhile (fun b => b != 0)) with _ | tagSfx
    · -- a content line: CRC it and continue
      have hs : scanLoop false flat st (l :: rest)
          = scanLoop false flat
              { st with crc := (crc_add (st.crc, st.ls) (l.takeWhile (fun b => b != 0))).1,
                        ls := (crc_add (st.crc, st.ls) (l.takeWhile (fun b => b != 0))).2,
                        blockEnd := st.pos + l.length, pos := st.pos + l.length } rest := by
        simp only [scanLoop, hft]
      have hsb : splitBlocks (l :: rest)
          = match splitBlocks rest with
            | [] => []
            | b :: bs => ⟨(l.takeWhile (fun b => b != 0)) :: b.content, b.tag⟩ :: bs := by
        simp only [splitBlocks, hft]
      obtain ⟨ih1, ih2, ih3, ih4, ih5, ih6⟩ :=
        ih { st with crc := (crc_add (st.crc, st.ls) (l.takeWhile (fun b => b != 0))).1,
                     ls := (crc_add (st.crc, st.ls) (l.takeWhile (fun b => b != 0))).2,
                     blockEnd := st.pos + l.length, pos := st.pos + l.length }
      rw [hs, hsb]
      refine ⟨ih1, ?_, ?_, ?_, ?_, ?_⟩
      · rw [any_malformed_match]
        exact ih2
      · rw [countDiv_match_content kindStruct (fun _ _ _ => rfl)]
        exact ih3
      · rw [countDiv_match_content kindCode (fun _ _ _ => rfl)]
        exact ih4
      · rw [countDiv_match_content kindCb (fun _ _ _ => rfl)]
        exact ih5
      · rw [countDiv_match_content (kindMiss st.tree) (fun _ _ _ => rfl)]
        exact ih6
    · rcases hpt : parseTag tagSfx with _ | ⟨ty, uid, crcTag⟩
      · -- tag line that does not scan: abort
        have hs : scanLoop false flat st (l :: rest) = (st, true) := by
          simp only [scanLoop, hft, hpt, if_true]
        have hsb : splitBlocks (l :: rest) = ⟨[], tagSfx⟩ :: splitBlocks rest := by
          simp only [splitBlocks, hft]
        have hmal : malformedB ⟨[], tagSfx⟩ = true := by simp [malformedB, hpt]
        rw [hs, hsb]
        refine ⟨rfl, by simp [hmal], ?_, ?_, ?_, ?_⟩ <;> simp [countDiv, hmal]
      · by_cases hoob : ty < 0 ∨ 3 < ty
        · -- type outside 0..3: abort
          have hs : scanLoop false flat st (l :: rest) = (st, true) := by
            simp only [scanLoop, hft, hpt, if_true]
            rw [if_pos hoob]
          have hsb : splitBlocks (l :: rest) = ⟨[], tagSfx⟩ :: splitBlocks rest := by
            simp only [splitBlocks, hft]
          have hmal : malformedB ⟨[], tagSfx⟩ = true := by
            simp [malformedB, hpt]
            omega
          rw [hs, hsb]
          refine ⟨rfl, by simp [hmal], ?_, ?_, ?_, ?_⟩ <;> simp [countDiv, hmal]
        · -- well-formed tag: classify and reset
          have hmal : malformedB ⟨[], tagSfx⟩ = false := by
            simp [malformedB, hpt]
            omega
          have hsb : splitBlocks (l :: rest) = ⟨[], tagSfx⟩ :: splitBlocks rest := by
            simp only [splitBlocks, hft]
          by_cases hdiv : st.crc ≠ crcTag
          · have hs : scanLoop false flat st (l :: rest)
                = scanLoop false flat
                    { st with
                      nStruct := st.nStruct + (if ty = 0 then 1 else 0),
                      nCode := st.nCode + (if ty = 1 then 1 else 0),
                      nCb := st.nCb + (if ty = 2 ∨ ty = 3 then 1 else 0),
                      nUid := st.nUid +
                        (if (ty = 1 ∨ ty = 2 ∨ ty = 3) ∧ find_by_uid uid st.tree = none
                         then 1 else 0),
                      crc := crcInit, ls := true,
                      blockStart := st.pos + l.length, pos := st.pos + l.length } rest := by
              simp only [scanLoop, hft, hpt, if_true]
              rw [if_neg hoob, if_pos hdiv]
              rfl
            have hdd : divergesFrom (st.crc, st.ls) ⟨[], tagSfx⟩ = true := by
              simp [divergesFrom, hpt, blockCrcFrom]
              exact hdiv
            obtain ⟨ih1, ih2, ih3, ih4, ih5, ih6⟩ :=
              ih { st with
                    nStruct := st.nStruct + (if ty = 0 then 1 else 0),
                    nCode := st.nCode + (if ty = 1 then 1 else 0),
                    nCb := st.nCb + (if ty = 2 ∨ ty = 3 then 1 else 0),
                    nUid := st.nUid +
                      (if (ty = 1 ∨ ty = 2 ∨ ty = 3) ∧ find_by_uid uid st.tree = none
                       then 1 else 0),
                    crc := crcInit, ls := true,
                    blockStart := st.pos + l.length, pos := st.pos + l.length }
            rw [hs, hsb]
            refine ⟨ih1, by simpa [hmal] using ih2, ?_, ?_, ?_, ?_⟩
            · rw [ih3]
              dsimp only
              simp [countDiv, hmal, hdd, kindStruct, hpt, initCrcSt, or_assoc]
              try omega
            · rw [ih4]
              dsimp only
              simp [countDiv, hmal, hdd, kindCode, hpt, initCrcSt, or_assoc]
              try omega
            · rw [ih5]
              dsimp only
              simp [countDiv, hmal, hdd, kindCb, hpt, initCrcSt, or_assoc]
              try omega
            · rw [ih6]
              dsimp only
              simp [countDiv, hmal, hdd, kindMiss, hpt, initCrcSt, or_assoc,
                Option.isNone_iff_eq_none]
              try omega
          · -- CRC matches: nothing counted
            have hs : scanLoop false flat st (l :: rest)
                = scanLoop false flat
                    { st with crc := crcInit, ls := true,
                              blockStart := st.pos + l.length, pos := st.pos + l.length } rest := by
              simp only [scanLoop, hft, hpt, if_true]
              rw [if_neg hoob, if_neg hdiv]
            have hdd : divergesFrom (st.crc, st.ls) ⟨[], tagSfx⟩ = false := by
              simp [divergesFrom, hpt, blockCrcFrom]
              simpa using hdiv
            obtain ⟨ih1, ih2, ih3, ih4, ih5, ih6⟩ :=
              ih { st with crc := crcInit, ls := true,
                           blockStart := st.pos + l.length, pos := st.pos + l.length }
            rw [hs, hsb]
            refine ⟨ih1, by simpa [hmal] using ih2, ?_, ?_, ?_, ?_⟩
            · rw [ih3]
              simp [countDiv, hmal, hdd, initCrcSt]
            · rw [ih4]
              simp [countDiv, hmal, hdd, initCrcSt]
            · rw [ih5]
              simp [countDiv, hmal, hdd, initCrcSt]
            · rw [ih6]
              simp [countDiv, hmal, hdd, initCrcSt]


/-- With no malformed tag, a divergence counter is non-zero exactly when
some block is divergent and of the counted kind. -/
theorem countDiv_ne_zero (p : MBlock → Bool) :
    ∀ bs : List MBlock, bs.any malformedB = false →
      ((countDiv p initCrcSt bs ≠ 0)
        ↔ bs.any (fun b => divergesFrom initCrcSt b && p b) = true) := by
  intro bs
  induction bs with
  | nil => intro _; simp [countDiv]
  | cons b bs2 ih =>
    intro h
    simp only [List.any_cons, Bool.or_eq_false_iff] at h
    simp only [countDiv, h.1, Bool.false_eq_true, if_false, List.any_cons]
    by_cases hd : (divergesFrom initCrcSt b && p b) = true
    · simp [hd]
    · have hd2 : (divergesFrom initCrcSt b && p b) = false := by simpa using hd
      simp [hd2, ih h.2]

/-- Folding the four `ret |= bit` updates into a sum of distinct bits. -/
theorem bits_or_eq_add (p q r s : Bool) :
    ((((0 : Nat) ||| (if p then 1 else 0)) ||| (if q then 2 else 0))
        ||| (if r then 4 else 0)) ||| (if s then 8 else 0)
      = (if p then 1 else 0) + (if q then 2 else 0) + (if r then 4 else 0)
        + (if s then 8 else 0) := by
  cases p <;> cases q <;> cases r <;> cases s <;> rfl

/-- Transport the `ret |=` expression along the counter characterisations. -/
theorem check_ret_eq (a b c d : Nat) (p q r s : Bool)
    (ha : a ≠ 0 ↔ p = true) (hb : b ≠ 0 ↔ q = true)
    (hc : c ≠ 0 ↔ r = true) (hd : d ≠ 0 ↔ s = true) :
    ((((0 : Nat) ||| (if a ≠ 0 then 1 else 0)) ||| (if b ≠ 0 then 2 else 0))
        ||| (if c ≠ 0 then 4 else 0)) ||| (if d ≠ 0 then 8 else 0)
      = (if p then 1 else 0) + (if q then 2 else 0) + (if r then 4 else 0)
        + (if s then 8 else 0) := by
  have e1 : (if a ≠ 0 then 1 else 0) = (if p = true then (1 : Nat) else 0) := by
    by_cases h : a ≠ 0
    · rw [if_pos h, if_pos (ha.mp h)]
    · rw [if_neg h, if_neg (fun hp => h (ha.mpr hp))]
  have e2 : (if b ≠ 0 then 2 else 0) = (if q = true then (2 : Nat) else 0) := by
    by_cases h : b ≠ 0
    · rw [if_pos h, if_pos (hb.mp h)]
    · rw [if_neg h, if_neg (fun hp => h (hb.mpr hp))]
  have e3 : (if c ≠ 0 then 4 else 0) = (if r = true then (4 : Nat) else 0) := by
    by_cases h : c ≠ 0
    · rw [if_pos h, if_pos (hc.mp h)]
    · rw [if_neg h, if_neg (fun hp => h (hc.mpr hp))]
  have e4 : (if d ≠ 0 then 8 else 0) = (if s = true then (8 : Nat) else 0) := by
    by_cases h : d ≠ 0
    · rw [if_pos h, if_pos (hd.mp h)]
    · rw [if_neg h, if_neg (fun hp => h (hd.mpr hp))]
  rw [e1, e2, e3, e4]
  exact bits_or_eq_add p q r s

/-- C1: for every file and every design tree, `merge_back(path, CHECK)`
leaves the tree untouched and returns -1 when some tag line is malformed
(the field scan does not yield three fields, or the kind is outside
0..3), and otherwise the bitmask with bit 0 set iff some generic block
diverges, bit 1 iff some code block diverges, bit 2 iff some menu/widget
callback block diverges, and bit 3 iff some divergent code/callback
block's uid has no node in the tree. -/
theorem merge_back_check_bitmask (tree : List FlType) (lines : List (List Nat)) (choice : Bool) :
    merge_back true (some lines) tree .check choice
      = (if (splitBlocks lines).any malformedB then (-1 : Int)
         else (((if (splitBlocks lines).any divStructB then 1 else 0)
             + (if (splitBlocks lines).any divCodeB then 2 else 0)
             + (if (splitBlocks lines).any divCbB then 4 else 0)
             + (if (splitBlocks lines).any (divMissB tree) then 8 else 0) : Nat) : Int),
         tree) := by
  obtain ⟨h1, h2, h3, h4, h5, h6⟩ := scanLoop_classify lines.flatten lines (scanInit tree)
  rcases hout : scanLoop false lines.flatten (scanInit tree) lines with ⟨stf, err⟩
  rw [hout] at h1 h2 h3 h4 h5 h6
  dsimp only [scanInit] at h1 h2 h3 h4 h5 h6
  simp only [Nat.zero_add] at h3 h4 h5 h6
  have hm : merge_back true (some lines) tree .check choice
      = (if err = true then ((-1 : Int), stf.tree)
         else (((((((0 : Nat) ||| (if stf.nStruct ≠ 0 then 1 else 0))
             ||| (if stf.nCode ≠ 0 then 2 else 0))
             ||| (if stf.nCb ≠ 0 then 4 else 0))
             ||| (if stf.nUid ≠ 0 then 8 else 0) : Nat) : Int), stf.tree)) := by
    simp only [merge_back]
    rw [hout]
    simp
  rw [hm]
  by_cases hmal : (splitBlocks lines).any malformedB = true
  · rw [if_pos (by rw [h2]; exact hmal), if_pos hmal]
    rw [h1]
  · have hmal2 : (splitBlocks lines).any malformedB = false := by simpa using hmal
    rw [if_neg (by rw [h2, hmal2]; exact Bool.false_ne_true), if_neg hmal]
    rw [h1]
    have hret := check_ret_eq stf.nStruct stf.nCode stf.nCb stf.nUid
      ((splitBlocks lines).any divStructB) ((splitBlocks lines).any divCodeB)
      ((splitBlocks lines).any divCbB) ((splitBlocks lines).any (divMissB tree))
      (by rw [h3]
          exact (countDiv_ne_zero kindStruct (splitBlocks lines) hmal2).trans
            (by rw [show (fun b => divergesFrom initCrcSt b && kindStruct b) = divStructB from rfl]))
      (by rw [h4]
          exact (countDiv_ne_zero kindCode (splitBlocks lines) hmal2).trans
            (by rw [show (fun b => divergesFrom initCrcSt b && kindCode b) = divCodeB from rfl]))
      (by rw [h5]
          exact (countDiv_ne_zero kindCb (splitBlocks lines) hmal2).trans
            (by rw [show (fun b => divergesFrom initCrcSt b && kindCb b) = divCbB from rfl]))
      (by rw [h6]
          exact (countDiv_ne_zero (kindMiss tree) (splitBlocks lines) hmal2).trans
            (by rw [show (fun b => divergesFrom initCrcSt b && kindMiss tree b)
                = divMissB tree from rfl]))
    rw [hret]

/-- The analogue of `countDiv_match_content` for the applied-edit search:
the applicability test only reads the tag. -/
theorem goAnyFrom_match_content (tree : List FlType) (st0 : CrcSt) (l2 : List Nat)
    (bl : List MBlock) :
    goAnyFrom st0 tree
        (match bl with
          | [] => ([] : List MBlock)
          | b :: bs => ⟨l2 :: b.content, b.tag⟩ :: bs)
      = goAnyFrom (crc_add st0 l2) tree bl := by
  cases bl with
  | nil => rfl
  | cons b bs => rfl

/-- A `FD_MERGEBACK_GO` scan sets `changed` exactly when some block
before the first malformed tag is divergent and names an applicable node
(the first block's CRC continuing from the incoming state, later blocks
from the reset state). -/
theorem scanLoop_go (flat : List Nat) :
    ∀ (lines : List (List Nat)) (st : ScanSt),
      (scanLoop true flat st lines).1.changed
        = (st.changed || goAnyFrom (st.crc, st.ls) st.tree (splitBlocks lines)) := by
  intro lines
  induction lines with
  | nil =>
    intro st
    simp [scanLoop, splitBlocks, goAnyFrom]
  | cons l rest ih =>
    intro st
    rcases hft : findTag (l.takeWhile (fun b => b != 0)) with _ | tagSfx
    · have hs : scanLoop true flat st (l :: rest)
          = scanLoop true flat
              { st with crc := (crc_add (st.crc, st.ls) (l.takeWhile (fun b => b != 0))).1,
                        ls := (crc_add (st.crc, st.ls) (l.takeWhile (fun b => b != 0))).2,
                        blockEnd := st.pos + l.length, pos := st.pos + l.length } rest := by
        simp only [scanLoop, hft]
      have hsb : splitBlocks (l :: rest)
          = match splitBlocks rest with
            | [] => []
            | b :: bs => ⟨(l.takeWhile (fun b => b != 0)) :: b.content, b.tag⟩ :: bs := by
        simp only [splitBlocks, hft]
      rw [hs, hsb, goAnyFrom_match_content]
      exact ih { st with crc := (crc_add (st.crc, st.ls) (l.takeWhile (fun b => b != 0))).1,
                         ls := (crc_add (st.crc, st.ls) (l.takeWhile (fun b => b != 0))).2,
                         blockEnd := st.pos + l.length, pos := st.pos + l.length }
    · rcases hpt : parseTag tagSfx with _ | ⟨ty, uid, crcTag⟩
      · have hs : scanLoop true flat st (l :: rest) = (st, true) := by
          simp only [scanLoop, hft, hpt, if_true]
        have hsb : splitBlocks (l :: rest) = ⟨[], tagSfx⟩ :: splitBlocks rest := by
          simp only [splitBlocks, hft]
        have hmal : malformedB ⟨[], tagSfx⟩ = true := by simp [malformedB, hpt]
        rw [hs, hsb]
        simp [goAnyFrom, hmal]
      · by_cases hoob : ty < 0 ∨ 3 < ty
        · have hs : scanLoop true flat st (l :: rest) = (st, true) := by
            simp only [scanLoop, hft, hpt, if_true]
            rw [if_pos hoob]
          have hsb : splitBlocks (l :: rest) = ⟨[], tagSfx⟩ :: splitBlocks rest := by
            simp only [splitBlocks, hft]
          have hmal : malformedB ⟨[], tagSfx⟩ = true := by
            simp [malformedB, hpt]
            omega
          rw [hs, hsb]
          simp [goAnyFrom, hmal]
        · have hmal : malformedB ⟨[], tagSfx⟩ = false := by
            simp [malformedB, hpt]
            omega
          have hsb : splitBlocks (l :: rest) = ⟨[], tagSfx⟩ :: splitBlocks rest := by
            simp only [splitBlocks, hft]
          by_cases hdiv : st.crc ≠ crcTag
          · have hdd : divergesFrom (st.crc, st.ls) ⟨[], tagSfx⟩ = true := by
              simp [divergesFrom, hpt, blockCrcFrom]
              exact hdiv
            by_cases h23 : ty = 2 ∨ ty = 3
            · have hb23 : (ty == 2 || ty == 3) = true := by
                rcases h23 with h | h <;> simp [h]
              rcases hfind : find_by_uid uid st.tree with _ | n
              · have hka : kindApplicable st.tree ⟨[], tagSfx⟩ = false := by
                  simp [kindApplicable, hpt, hb23, hfind]
                have hs : scanLoop true flat st (l :: rest)
                    = scanLoop true flat
                        { st with crc := crcInit, ls := true,
                                  blockStart := st.pos + l.length, pos := st.pos + l.length }
                        rest := by
                  simp only [scanLoop, hft, hpt, if_true]
                  rw [if_neg hoob, if_pos hdiv, if_pos h23, hfind]
                rw [hs, hsb]
                rw [show goAnyFrom (st.crc, st.ls) st.tree (⟨[], tagSfx⟩ :: splitBlocks rest)
                    = ((divergesFrom (st.crc, st.ls) ⟨[], tagSfx⟩
                        && kindApplicable st.tree ⟨[], tagSfx⟩)
                      || goAnyFrom initCrcSt st.tree (splitBlocks rest)) from by
                  simp [goAnyFrom, hmal]]
                rw [hka, Bool.and_false, Bool.false_or]
                exact ih { st with crc := crcInit, ls := true,
                                   blockStart := st.pos + l.length, pos := st.pos + l.length }
              · by_cases hw : n.is_true_widget = true
                · have hka : kindApplicable st.tree ⟨[], tagSfx⟩ = true := by
                    simp [kindApplicable, hpt, hb23, hfind, hw]
                  have hs : scanLoop true flat st (l :: rest)
                      = scanLoop true flat
                          { st with
                            tree := updFirst uid
                              (fun m => { m with
                                callback := unindent_block flat st.blockStart st.blockEnd })
                              st.tree,
                            changed := true, crc := crcInit, ls := true,
                            blockStart := st.pos + l.length, pos := st.pos + l.length } rest := by
                    simp only [scanLoop, hft, hpt, if_true]
                    rw [if_neg hoob, if_pos hdiv, if_pos h23, hfind]
                    dsimp only
                    rw [if_pos hw]
                  rw [hs, hsb]
                  have ihx := ih { st with
                    tree := updFirst uid
                      (fun m => { m with
                        callback := unindent_block flat st.blockStart st.blockEnd }) st.tree,
                    changed := true, crc := crcInit, ls := true,
                    blockStart := st.pos + l.length, pos := st.pos + l.length }
                  rw [ihx]
                  simp [goAnyFrom, hmal, hdd, hka]
                · have hwf : n.is_true_widget = false := by simpa using hw
                  have hka : kindApplicable st.tree ⟨[], tagSfx⟩ = false := by
                    simp [kindApplicable, hpt, hb23, hfind, hwf]
                  have hs : scanLoop true flat st (l :: rest)
                      = scanLoop true flat
                          { st with crc := crcInit, ls := true,
                                    blockStart := st.pos + l.length, pos := st.pos + l.length }
                          rest := by
                    simp only [scanLoop, hft, hpt, if_true]
                    rw [if_neg hoob, if_pos hdiv, if_pos h23, hfind]
                    dsimp only
                    rw [if_neg (by simp [hwf])]
                  rw [hs, hsb]
                  rw [show goAnyFrom (st.crc, st.ls) st.tree (⟨[], tagSfx⟩ :: splitBlocks rest)
                      = ((divergesFrom (st.crc, st.ls) ⟨[], tagSfx⟩
                          && kindApplicable st.tree ⟨[], tagSfx⟩)
                        || goAnyFrom initCrcSt st.tree (splitBlocks rest)) from by
                    simp [goAnyFrom, hmal]]
                  rw [hka, Bool.and_false, Bool.false_or]
                  exact ih { st with crc := crcInit, ls := true,
                                     blockStart := st.pos + l.length, pos := st.pos + l.length }
            · have hb23 : (ty == 2 || ty == 3) = false := by
                simp only [Bool.or_eq_false_iff, beq_eq_false_iff_ne, ne_eq]
                omega
              by_cases h1t : ty = 1
              · have hb1 : (ty == 1) = true := by simp [h1t]
                rcases hfind : find_by_uid uid st.tree with _ | n
                · have hka : kindApplicable st.tree ⟨[], tagSfx⟩ = false := by
                    simp [kindApplicable, hpt, hb23, hb1, hfind]
                  have hs : scanLoop true flat st (l :: rest)
                      = scanLoop true flat
                          { st with crc := crcInit, ls := true,
                                    blockStart := st.pos + l.length, pos := st.pos + l.length }
                          rest := by
                    simp only [scanLoop, hft, hpt, if_true]
                    rw [if_neg hoob, if_pos hdiv, if_neg h23, if_pos h1t, hfind]
                  rw [hs, hsb]
                  rw [show goAnyFrom (st.crc, st.ls) st.tree (⟨[], tagSfx⟩ :: splitBlocks rest)
                      = ((divergesFrom (st.crc, st.ls) ⟨[], tagSfx⟩
                          && kindApplicable st.tree ⟨[], tagSfx⟩)
                        || goAnyFrom initCrcSt st.tree (splitBlocks rest)) from by
                    simp [goAnyFrom, hmal]]
                  rw [hka, Bool.and_false, Bool.false_or]
                  exact ih { st with crc := crcInit, ls := true,
                                     blockStart := st.pos + l.length, pos := st.pos + l.length }
                · by_cases hc : n.is_code = true
                  · have hka : kindApplicable st.tree ⟨[], tagSfx⟩ = true := by
                      simp [kindApplicable, hpt, hb23, hb1, hfind, hc]
                    have hs : scanLoop true flat st (l :: rest)
                        = scanLoop true flat
                            { st with
                              tree := updFirst uid
                                (fun m => { m with
                                  name := unindent_block flat st.blockStart st.blockEnd })
                                st.tree,
                              changed := true, crc := crcInit, ls := true,
                              blockStart := st.pos + l.length, pos := st.pos + l.length }
                            rest := by
                      simp only [scanLoop, hft, hpt, if_true]
                      rw [if_neg hoob, if_pos hdiv, if_neg h23, if_pos h1t, hfind]
                      dsimp only
                      rw [if_pos hc]
                    rw [hs, hsb]
                    have ihx := ih { st with
                      tree := updFirst uid
                        (fun m => { m with
                          name := unindent_block flat st.blockStart st.blockEnd }) st.tree,
                      changed := true, crc := crcInit, ls := true,
                      blockStart := st.pos + l.length, pos := st.pos + l.length }
                    rw [ihx]
                    simp [goAnyFrom, hmal, hdd, hka]
                  · have hcf : n.is_code = false := by simpa using hc
                    have hka : kindApplicable st.tree ⟨[], tagSfx⟩ = false := by
                      simp [kindApplicable, hpt, hb23, hb1, hfind, hcf]
                    have hs : scanLoop true flat st (l :: rest)
                        = scanLoop true flat
                            { st with crc := crcInit, ls := true,
                                      blockStart := st.pos + l.length, pos := st.pos + l.length }
                            rest := by
                      simp only [scanLoop, hft, hpt, if_true]
                      rw [if_neg hoob, if_pos hdiv, if_neg h23, if_pos h1t, hfind]
                      dsimp only
                      rw [if_neg (by simp [hcf])]
                    rw [hs, hsb]
                    rw [show goAnyFrom (st.crc, st.ls) st.tree (⟨[], tagSfx⟩ :: splitBlocks rest)
                        = ((divergesFrom (st.crc, st.ls) ⟨[], tagSfx⟩
                            && kindApplicable st.tree ⟨[], tagSfx⟩)
                          || goAnyFrom initCrcSt st.tree (splitBlocks rest)) from by
                      simp [goAnyFrom, hmal]]
                    rw [hka, Bool.and_false, Bool.false_or]
                    exact ih { st with crc := crcInit, ls := true,
                                       blockStart := st.pos + l.length, pos := st.pos + l.length }
              · have hb1 : (ty == 1) = false := by
                  simp only [beq_eq_false_iff_ne, ne_eq]
                  omega
                have hka : kindApplicable st.tree ⟨[], tagSfx⟩ = false := by
                  simp [kindApplicable, hpt, hb23, hb1]
                have hs : scanLoop true flat st (l :: rest)
                    = scanLoop true flat
                        { st with crc := crcInit, ls := true,
                                  blockStart := st.pos + l.length, pos := st.pos + l.length }
                        rest := by
                  simp only [scanLoop, hft, hpt, if_true]
                  rw [if_neg hoob, if_pos hdiv, if_neg h23, if_neg h1t]
                rw [hs, hsb]
                rw [show goAnyFrom (st.crc, st.ls) st.tree (⟨[], tagSfx⟩ :: splitBlocks rest)
                    = ((divergesFrom (st.crc, st.ls) ⟨[], tagSfx⟩
                        && kindApplicable st.tree ⟨[], tagSfx⟩)
                      || goAnyFrom initCrcSt st.tree (splitBlocks rest)) from by
                  simp [goAnyFrom, hmal]]
                rw [hka, Bool.and_false, Bool.false_or]
                exact ih { st with crc := crcInit, ls := true,
                                   blockStart := st.pos + l.length, pos := st.pos + l.length }
          · have hdd : divergesFrom (st.crc, st.ls) ⟨[], tagSfx⟩ = false := by
              simp [divergesFrom, hpt, blockCrcFrom]
              simpa using hdiv
            have hs : scanLoop true flat st (l :: rest)
                = scanLoop true flat
                    { st with crc := crcInit, ls := true,
                              blockStart := st.pos + l.length, pos := st.pos + l.length } rest := by
              simp only [scanLoop, hft, hpt, if_true]
              rw [if_neg hoob, if_neg hdiv]
            rw [hs, hsb]
            rw [show goAnyFrom (st.crc, st.ls) st.tree (⟨[], tagSfx⟩ :: splitBlocks rest)
                = ((divergesFrom (st.crc, st.ls) ⟨[], tagSfx⟩
                    && kindApplicable st.tree ⟨[], tagSfx⟩)
                  || goAnyFrom initCrcSt st.tree (splitBlocks rest)) from by
              simp [goAnyFrom, hmal]]
            rw [hdd, Bool.false_and, Bool.false_or]
            exact ih { st with crc := crcInit, ls := true,
                               blockStart := st.pos + l.length, pos := st.pos + l.length }

/-- The applied-edit search equals an `any` over the blocks before the
first malformed tag. -/
theorem goAnyFrom_eq_any (tree : List FlType) :
    ∀ bs : List MBlock,
      goAnyFrom initCrcSt tree bs
        = (bs.takeWhile (fun b => !malformedB b)).any
            (fun b => blockDiverges b && kindApplicable tree b) := by
  intro bs
  induction bs with
  | nil => rfl
  | cons b bs2 ih =>
    cases hb : malformedB b with
    | true => simp [goAnyFrom, hb]
    | false => simp [goAnyFrom, hb, ih, blockDiverges]

/-- C2 amended: `merge_back(path, GO)` returns 1 exactly when at least one
edit was applied — some block before the first malformed tag diverges and
names an applicable node — and 0 otherwise.  A malformed tag line merely
stops the scan (edits already applied are kept); it does not make the
result -1 (refuted as stated by `merge_back_go_tag_error_cex`). -/
theorem merge_back_go_returns (tree : List FlType) (lines : List (List Nat)) (choice : Bool) :
    (merge_back true (some lines) tree .go choice).1
      = if ((splitBlocks lines).takeWhile (fun b => !malformedB b)).any
            (fun b => blockDiverges b && kindApplicable tree b) then 1 else 0 := by
  have hgo := scanLoop_go lines.flatten lines (scanInit tree)
  rcases hout : scanLoop true lines.flatten (scanInit tree) lines with ⟨stf, err⟩
  rw [hout] at hgo
  dsimp only [scanInit] at hgo
  rw [Bool.false_or] at hgo
  have hm : (merge_back true (some lines) tree .go choice).1
      = if stf.changed = true then 1 else 0 := by
    simp only [merge_back]
    rw [hout]
    simp
  rw [hm, hgo, show ((crcInit, true) : CrcSt) = initCrcSt from rfl, goAnyFrom_eq_any]

/-! ## Sanity checks against the wire format

Named evaluations tying the embedding to known reference values: the
CRC-32 of the single byte `a`, the E5 tag-line scenario, the E1 escaping
scenario, and a round trip of the tag line through the merge-back scan. -/

/-- CRC-32 of the one-byte string `a` is the standard 0xE8B7BE43. -/
theorem crc32_update_reference : crc32_update 0 97 = 0xE8B7BE43 := by decide

/-- E5: `tag(1, 0x00ab)` with `block_crc = 0xDEADBEEF` writes exactly
the line `//~fl~1~00ab~deadbeef~~` and resets the CRC. -/
theorem tag_scenario_e5 :
    tag true (0xDEADBEEF, true) 1 0xab = ((0, true), strBytes "//~fl~1~00ab~deadbeef~~\n") := by
  decide

/-- E1: `write_cstring("hi\n")` emits `"hi\n"` with a literal
backslash-n inside the quotes. -/
theorem write_cstring_scenario_e1 :
    write_cstring false false false (some (strBytes "hi\n")) 3 = strBytes "\"hi\\n\"" := by
  decide

/-- The emitted tag line scans back to its own fields. -/
theorem parseTag_of_emitted :
    parseTag (strBytes "//~fl~1~00ab~deadbeef~~\n") = some (1, 0xab, 0xdeadbeef) := by
  decide

/-- Merge-back null effect in miniature: a block emitted through the CRC
layer and closed with `tag` re-reads with matching CRC, so `CHECK`
reports no divergence. -/
theorem mergeback_null_effect_sample :
    merge_back true
      (some [strBytes "int x;\n",
             (tag true ((crc_add (crcInit, true) (strBytes "int x;\n")).1, true) 1 5).2])
      [] .check false = (0, []) := by
  decide

end Fluid
